import Mathlib

/-!
# Verification of the carepilot chunked extraction-and-merge pipeline

Shallow embedding of the core data transformations of the carepilot backend:

* the text chunker (`src/backend/pinecone_store.py`, `_chunk_text` and the
  three strategy functions),
* the field mergers (`src/backend/benefits_agent.py` `_merge_benefits`,
  the per-step merges inside `benefits_agent_cot.py` and `eob_agent_cot.py`),
* the CoT orchestrators (`extract_from_document` of both CoT agents) with the
  external LLM / vector-store calls abstracted as oracles,
* the iterative refinement loop (`benefits_agent.py` `_extract_iteratively`),
* the multi-tenancy filter construction (`pinecone_store.py` `query_private`).

Python strings are modelled as `List Char` in the chunker (where character
arithmetic matters) and as Lean `String` elsewhere.  Python's dynamically
typed JSON-ish values are modelled by the inductive type `PyVal`; numeric
values (Python int/float) are modelled as exact rationals — no claim in this
development depends on float rounding.  Python dicts are modelled as
insertion-ordered association lists with unique keys maintained by `pySet`.
Where Python would raise `TypeError` on values of unexpected type (e.g.
iterating a non-list), the embedding coerces via `asList`/`asDict`; every
theorem exercising such a path restricts attention to well-typed values.
-/

namespace Carepilot

/-- A Python value as it appears in the parsed-JSON dictionaries the agents
manipulate: `None`, booleans, numbers (modelled as exact rationals), strings,
lists and string-keyed dicts. -/
inductive PyVal where
  | none
  | bool (b : Bool)
  | num (q : ℚ)
  | str (s : String)
  | list (xs : List PyVal)
  | dict (kvs : List (String × PyVal))
  deriving Repr

namespace PyVal

/-- Python truthiness: `bool(v)`. -/
def truthy : PyVal → Bool
  | .none => false
  | .bool b => b
  | .num q => q ≠ 0
  | .str s => s ≠ ""
  | .list xs => !xs.isEmpty
  | .dict kvs => !kvs.isEmpty

/-- Python `v == 0` (true for `0`, `0.0` and `False`). -/
def eqZero : PyVal → Bool
  | .num q => q = 0
  | .bool b => !b
  | _ => false

/-- Coerce to a list of elements (Python iteration; non-lists never reach the
iteration sites in the claims' well-typed universe). -/
def asList : PyVal → List PyVal
  | .list xs => xs
  | _ => []

/-- Coerce to dict entries. -/
def asDict : PyVal → List (String × PyVal)
  | .dict kvs => kvs
  | _ => []

end PyVal

/-- A Python dict with string keys: insertion-ordered association list. -/
abbrev PyDict := List (String × PyVal)

/-- `d.get(k)` / `d[k]` lookup; Python's `dict.get` returns `None` when the
key is absent. -/
def pyGet : PyDict → String → PyVal
  | [], _ => PyVal.none
  | p :: tl, k => if p.1 = k then p.2 else pyGet tl k

/-- `k in d`. -/
def pyContains : PyDict → String → Bool
  | [], _ => false
  | p :: tl, k => p.1 = k || pyContains tl k

/-- `d[k] = v`: overwrite the first occurrence of the key in place (Python
dicts keep the original insertion position), else append. -/
def pySet : PyDict → String → PyVal → PyDict
  | [], k, v => [(k, v)]
  | p :: tl, k, v => if p.1 = k then (k, v) :: tl else p :: pySet tl k v

/-- `d.update(other)`: assign every key of `other` in order. -/
def pyUpdate (d other : PyDict) : PyDict :=
  other.foldl (fun acc p => pySet acc p.1 p.2) d

@[simp] theorem pyGet_nil (k : String) : pyGet [] k = PyVal.none := rfl

theorem pyGet_cons (p : String × PyVal) (d : PyDict) (k : String) :
    pyGet (p :: d) k = if p.1 = k then p.2 else pyGet d k := rfl

/-- Setting one key does not change lookups at other keys. -/
theorem pyGet_set_ne (d : PyDict) (k k' : String) (v : PyVal) (h : k ≠ k') :
    pyGet (pySet d k v) k' = pyGet d k' := by
  induction d with
  | nil => simp [pySet, pyGet, h]
  | cons p tl ih =>
    by_cases hp : p.1 = k
    · simp [pySet, hp, pyGet, h, hp ▸ h]
    · simp only [pySet, if_neg hp]
      by_cases hp' : p.1 = k' <;> simp [pyGet, hp', ih]

/-- Setting a key makes lookup at that key return the new value. -/
theorem pyGet_set_eq (d : PyDict) (k : String) (v : PyVal) :
    pyGet (pySet d k v) k = v := by
  induction d with
  | nil => simp [pySet, pyGet]
  | cons p tl ih =>
    by_cases hp : p.1 = k
    · simp [pySet, hp, pyGet]
    · simp [pySet, hp, pyGet, ih]

/-- Stable insertion of `x` into a sorted list. -/
def insertBy {α : Type} (le : α → α → Bool) (x : α) : List α → List α
  | [] => [x]
  | y :: tl => if le x y then x :: y :: tl else y :: insertBy le x tl

/-- Stable sort (models Python's stable `sorted` and `sort_keys=True`). -/
def sortBy {α : Type} (le : α → α → Bool) (l : List α) : List α :=
  l.foldr (insertBy le) []

mutual

/-- Canonical rendering of a value, mirroring the source's
`json.dumps(item, sort_keys=True)` (dict keys sorted recursively).  The CoT
list dedup compares items by this rendering; the embedding also uses it for
Python `==`/`in` checks between parsed-JSON values (no theorem depends on the
corner cases where `==` and canonical-dump equality differ, and no theorem
depends on the concrete rendering — only on its reflexivity). -/
def pyDump : PyVal → String
  | .none => "null"
  | .bool b => if b then "true" else "false"
  | .num q => toString q
  | .str s => "\x22" ++ s ++ "\x22"
  | .list xs => "[" ++ String.intercalate ", " (pyDumpList xs) ++ "]"
  | .dict kvs =>
      "\x7b" ++
        String.intercalate ", "
          ((sortBy (fun a b => a.1 ≤ b.1) (pyDumpDict kvs)).map
            (fun p => "\x22" ++ p.1 ++ "\x22: " ++ p.2)) ++
      "\x7d"

def pyDumpList : List PyVal → List String
  | [] => []
  | x :: xs => pyDump x :: pyDumpList xs

def pyDumpDict : List (String × PyVal) → List (String × String)
  | [] => []
  | p :: tl => (p.1, pyDump p.2) :: pyDumpDict tl

end

/-- Python `a == b` on parsed-JSON values, modelled as equality of the
canonical dump (order-insensitive on dict keys, like Python's dict `==`). -/
def pyEq (a b : PyVal) : Bool := pyDump a == pyDump b

@[simp] theorem pyEq_refl (a : PyVal) : pyEq a a = true := by
  simp [pyEq]

/-! ## Text chunker (`pinecone_store.py`, `_chunk_text` and helpers)

Python strings are modelled as `List Char`; slice arguments are `Int` with
Python's negative-index and clamping rules. -/

/-- Normalise a Python slice index against a length `n`. -/
def pyIdx (n : Nat) (i : Int) : Nat :=
  if i < 0 then (i + n).toNat else min i.toNat n

/-- Python `s[a:b]`. -/
def pySlice (s : List Char) (a b : Int) : List Char :=
  (s.take (pyIdx s.length b)).drop (pyIdx s.length a)

/-- Python `s[a:]`. -/
def pySliceFrom (s : List Char) (a : Int) : List Char :=
  s.drop (pyIdx s.length a)

/-- Python `s[:b]`. -/
def pySliceTo (s : List Char) (b : Int) : List Char :=
  s.take (pyIdx s.length b)

/-- The characters `str.strip()` and `\s` treat as whitespace (ASCII part;
the documents at hand contain no exotic unicode spaces). -/
def isPyWs (c : Char) : Bool :=
  c = ' ' || c = '\t' || c = '\n' || c = '\r' || c = '\x0b' || c = '\x0c'

/-- Python `s.strip()`. -/
def pyStrip (s : List Char) : List Char :=
  ((s.dropWhile isPyWs).reverse.dropWhile isPyWs).reverse

/-- Python `s.rfind(sub)`: greatest index at which `sub` occurs, `-1` if it
does not occur. -/
def pyRfind (s sub : List Char) : Int :=
  match ((List.range (s.length + 1)).filter
      (fun i => sub.isPrefixOf (s.drop i))).getLast? with
  | some i => (i : Int)
  | Option.none => -1

/-- Python `s.split(sep)` for the two-character separator `"\n\n"` (the only
separator the chunker uses): split on each non-overlapping occurrence,
scanning left to right. -/
def pySplit2 (a b : Char) : List Char → List Char → List (List Char)
  | c :: d :: rest, acc =>
    if c = a ∧ d = b then acc.reverse :: pySplit2 a b rest []
    else pySplit2 a b (d :: rest) (c :: acc)
  | [c], acc => [(c :: acc).reverse]
  | [], acc => [acc.reverse]

def pySplit (a b : Char) (s : List Char) : List (List Char) :=
  pySplit2 a b s []

/-- Is the previous character a sentence-ending punctuation mark
(the `(?<=[.!?])` lookbehind)? -/
def isSenEnd (prev : Option Char) : Bool :=
  prev = some '.' || prev = some '!' || prev = some '?'

/-- `re.split(r'(?<=[.!?])\s+(?=[A-Z])', text)`: a delimiter is a maximal
whitespace run preceded by `.`/`!`/`?` and followed by an ASCII capital
letter (a shorter-than-maximal run can never match, since backtracking would
leave a whitespace character under the `[A-Z]` lookahead).  Single scan:
`curRev` is the current piece reversed, `pendRev` a whitespace run (reversed)
that opened after sentence-ending punctuation and whose fate depends on the
next non-whitespace character. -/
def splitSenGo : List Char → List (List Char) → List Char → List Char →
    List (List Char)
  | [], pieces, curRev, pendRev => pieces ++ [(pendRev ++ curRev).reverse]
  | c :: rest, pieces, curRev, pendRev =>
    if pendRev.isEmpty then
      if isSenEnd curRev.head? && isPyWs c then
        splitSenGo rest pieces curRev [c]
      else splitSenGo rest pieces (c :: curRev) pendRev
    else
      if isPyWs c then splitSenGo rest pieces curRev (c :: pendRev)
      else if 'A' ≤ c && c ≤ 'Z' then
        splitSenGo rest (pieces ++ [curRev.reverse]) [c] []
      else splitSenGo rest pieces (c :: (pendRev ++ curRev)) []

def splitSentences (text : List Char) : List (List Char) :=
  splitSenGo text [] [] []

/-- One `for sentence in sentences` iteration of `_chunk_by_sentence`
(state: chunks so far, current chunk buffer). -/
def chunkSentenceStep (cs ov : Int) (st : List (List Char) × List Char)
    (sen0 : List Char) : List (List Char) × List Char :=
  let sentence := pyStrip sen0
  if sentence.isEmpty then st else
  let chunks := st.1
  let current := st.2
  if (current.length : Int) + sentence.length + 1 > cs then
    if !current.isEmpty then
      -- close the chunk, seed the next one with the last `overlap` characters
      if 0 < ov ∧ ov < (current.length : Int) then
        (chunks ++ [pyStrip current], pySliceFrom current (-ov) ++ ' ' :: sentence)
      else
        (chunks ++ [pyStrip current], sentence)
    else
      -- sentence itself is too long: hard cut
      (chunks ++ [pySliceTo sentence cs],
       if (sentence.length : Int) > cs - ov then pySliceFrom sentence (cs - ov)
       else sentence)
  else
    (chunks, if current.isEmpty then sentence else current ++ ' ' :: sentence)

def chunk_by_sentence (text : List Char) (cs ov : Int) : List (List Char) :=
  let st := (splitSentences text).foldl (chunkSentenceStep cs ov) ([], [])
  if st.2.isEmpty then st.1 else st.1 ++ [pyStrip st.2]

/-- One `for para in paragraphs` iteration of `_chunk_by_paragraph`. -/
def chunkParagraphStep (cs ov : Int) (st : List (List Char) × List Char)
    (para0 : List Char) : List (List Char) × List Char :=
  let para := pyStrip para0
  if para.isEmpty then st else
  let chunks := st.1
  let current := st.2
  if (current.length : Int) + para.length + 2 > cs then
    if !current.isEmpty then
      if 0 < ov ∧ ov < (current.length : Int) then
        (chunks ++ [pyStrip current],
         pySliceFrom current (-ov) ++ '\n' :: '\n' :: para)
      else
        (chunks ++ [pyStrip current], para)
    else
      -- paragraph itself is too long: split it by sentence
      let sub := chunk_by_sentence para cs ov
      (chunks ++ sub.dropLast, match sub.getLast? with
        | some l => l
        | Option.none => para)
  else
    (chunks, if current.isEmpty then para else current ++ '\n' :: '\n' :: para)

def chunk_by_paragraph (text : List Char) (cs ov : Int) : List (List Char) :=
  let st := (pySplit '\n' '\n' text).foldl (chunkParagraphStep cs ov) ([], [])
  if st.2.isEmpty then st.1 else st.1 ++ [pyStrip st.2]

/-- One iteration of `_chunk_fixed`'s `while` loop: from the window start
compute the (possibly boundary-snapped) raw chunk and the value of `end`
after the iteration.  The comparison `sentence_end > chunk_size * 0.5` is an
exact int-vs-float comparison, rendered as `2 * se > cs`. -/
def chunkFixedStep (text : List Char) (cs : Int) (start : Int) :
    List Char × Int :=
  let end0 := start + cs
  let chunk := pySlice text start end0
  if end0 < (text.length : Int) then
    let se := max (pyRfind chunk ['.', ' '])
      (max (pyRfind chunk ['.', '\n'])
        (max (pyRfind chunk ['?', ' '])
          (max (pyRfind chunk ['!', ' '])
            (max (pyRfind chunk ['\n', '\n']) (pyRfind chunk ['\n'])))))
    if 2 * se > cs then
      let chunk' := pySliceTo chunk (se + 1)
      (chunk', start + chunk'.length)
    else (chunk, end0)
  else (chunk, end0)

/-- The `while start < len(text)` loop of `_chunk_fixed`, with fuel; `none`
means the fuel ran out, i.e. the source loop is still running.  The raw
(pre-`strip`) chunks are collected; `chunk_fixed` strips them afterwards,
which yields the same list the source appends.  The source's trailing
`if start >= len(text): break` is subsumed by the loop condition. -/
def chunkFixedLoop (text : List Char) (cs ov : Int) :
    Nat → Int → Option (List (List Char))
  | 0, start => if start < (text.length : Int) then Option.none else some []
  | fuel + 1, start =>
    if start < (text.length : Int) then
      let step := chunkFixedStep text cs start
      match chunkFixedLoop text cs ov fuel (step.2 - ov) with
      | some rest => some (step.1 :: rest)
      | Option.none => Option.none
    else some []

def chunk_fixed_raw (text : List Char) (cs ov : Int) :
    Option (List (List Char)) :=
  chunkFixedLoop text cs ov (text.length + 1) 0

def chunk_fixed (text : List Char) (cs ov : Int) :
    Option (List (List Char)) :=
  (chunk_fixed_raw text cs ov).map (List.map pyStrip)

/-- `_chunk_text` (defaults in the source: `chunk_size=1000`,
`chunk_overlap=200`, `strategy="sentence"`); any strategy string other than
`"paragraph"`/`"sentence"` falls through to the fixed strategy. -/
def chunk_text (text : List Char) (cs ov : Int) (strategy : String) :
    Option (List (List Char)) :=
  if (text.length : Int) ≤ cs then some [text]
  else if strategy = "paragraph" then some (chunk_by_paragraph text cs ov)
  else if strategy = "sentence" then some (chunk_by_sentence text cs ov)
  else chunk_fixed text cs ov

/-- Concatenate chunks in index order, removing the first `ov` characters of
every chunk after the first (the intentional overlap region). -/
def reconstruct (ov : Nat) : List (List Char) → List Char
  | [] => []
  | c :: rest => c ++ (rest.map (List.drop ov)).flatten

/-! ## Keyed record-list merging (services)

Shared by `benefits_agent.py` (`_merge_benefits`, keyed by `service_name`),
`benefits_agent_cot.py` (keyed by `service_name`, with an `if
s.get("service_name")` guard while building the map) and `eob_agent_cot.py`
(keyed by `service_description`). -/

/-- `record.get(keyName)` for a structured sub-record. -/
def recKey (keyName : String) (r : PyVal) : PyVal := pyGet r.asDict keyName

/-- A Python dict keyed by the extracted natural-key values; assignment keeps
the first-insertion position, keys compare with Python `==`. -/
abbrev PvMap := List (PyVal × PyVal)

def pvContains (m : PvMap) (k : PyVal) : Bool :=
  m.any (fun p => pyEq p.1 k)

def pvSet : PvMap → PyVal → PyVal → PvMap
  | [], k, v => [(k, v)]
  | p :: tl, k, v => if pyEq p.1 k then (k, v) :: tl else p :: pvSet tl k v

/-- `{r.get(keyName): r for r in existing}`; `withFilter` adds the
`if r.get(keyName)` guard used by `benefits_agent_cot.py`. -/
def buildKeyMap (keyName : String) (withFilter : Bool)
    (existing : List PyVal) : PvMap :=
  existing.foldl
    (fun m r =>
      if withFilter && !(recKey keyName r).truthy then m
      else pvSet m (recKey keyName r) r)
    []

/-- `for r in partial: if key and key not in map: map[key] = r`. -/
def insertNewKeys (keyName : String) (m : PvMap) (new : List PyVal) : PvMap :=
  new.foldl
    (fun m r =>
      let k := recKey keyName r
      if k.truthy && !(pvContains m k) then pvSet m k r else m)
    m

/-- The keyed merge of two record lists: build a key→record map from the
accumulated list, insert the partial records under fresh keys only, return
the map's values in order. -/
def mergeByKey (keyName : String) (withFilter : Bool)
    (existing newRecs : List PyVal) : List PyVal :=
  (insertNewKeys keyName (buildKeyMap keyName withFilter existing) newRecs).map
    (fun p => p.2)

/-! ## `benefits_agent.py` — `_merge_benefits` -/

def scalarMergeKeys : List String :=
  ["plan_name", "plan_type", "insurance_provider", "policy_number",
   "group_number", "effective_date", "expiration_date",
   "out_of_pocket_max_individual", "out_of_pocket_max_family",
   "in_network_providers", "network_notes", "preauth_notes",
   "exclusion_notes", "additional_benefits", "notes"]

def listMergeFields : List String :=
  ["deductibles", "copays", "coinsurance", "coverage_limits",
   "services", "exclusions", "preauth_required_services", "special_programs"]

/-- `merged_list = existing.copy(); for item in new: if item not in
merged_list: merged_list.append(item)` (membership by Python `==`). -/
def appendUnique (existing newList : List PyVal) : List PyVal :=
  newList.foldl
    (fun acc item => if acc.any (pyEq item) then acc else acc ++ [item])
    existing

/-- `list(set(existing + new))`: Python's set iteration order is unspecified;
modelled as first-occurrence dedup (no theorem depends on the order). -/
def setUnion (existing newList : List PyVal) : List PyVal :=
  (existing ++ newList).foldl
    (fun acc item => if acc.any (pyEq item) then acc else acc ++ [item])
    []

/-- One scalar-key step of `_merge_benefits`: `if key in new and (not
merged.get(key) or merged[key] == ""): merged[key] = new.get(key)` — the
`== ""` disjunct is subsumed by the falsiness test, since `""` is falsy. -/
def mergeScalarStep (new merged : PyDict) (key : String) : PyDict :=
  if pyContains new key && !(pyGet merged key).truthy then
    pySet merged key (pyGet new key)
  else merged

/-- One list-field step of `_merge_benefits` (`existing_list =
merged.get(field, [])`, `new_list = new.get(field, [])`, then the
services / unique-append / set-union branches). -/
def mergeListStep (new merged : PyDict) (field : String) : PyDict :=
  let exRaw := if pyContains merged field then pyGet merged field
               else PyVal.list []
  let newRaw := if pyContains new field then pyGet new field
                else PyVal.list []
  if !exRaw.truthy then pySet merged field newRaw
  else if newRaw.truthy then
    if field = "services" then
      pySet merged field
        (PyVal.list (mergeByKey "service_name" false exRaw.asList newRaw.asList))
    else if (["deductibles", "copays", "coinsurance", "coverage_limits"] :
        List String).contains field then
      pySet merged field (PyVal.list (appendUnique exRaw.asList newRaw.asList))
    else
      pySet merged field (PyVal.list (setUnion exRaw.asList newRaw.asList))
  else merged

/-- `_merge_benefits(existing, new)` (pure: `merged = existing.copy()`). -/
def merge_benefits (existing newResult : PyDict) : PyDict :=
  let merged := existing
  let merged := scalarMergeKeys.foldl (mergeScalarStep newResult) merged
  let merged :=
    if pyContains newResult "out_of_network_coverage" then
      pySet merged "out_of_network_coverage"
        (pyGet newResult "out_of_network_coverage")
    else merged
  listMergeFields.foldl (mergeListStep newResult) merged

/-! ## `benefits_agent.py` — `_analyze_missing_information` -/

def isNone : PyVal → Bool
  | .none => true
  | _ => false

/-- The completeness analyzer: the fixed checklist of missing categories,
in source order. -/
def analyze_missing_information (benefits : PyDict) : List String :=
  let missing : List String := []
  let missing := if !(pyGet benefits "plan_name").truthy then
      missing ++ ["plan_name"] else missing
  let missing := if !(pyGet benefits "insurance_provider").truthy then
      missing ++ ["insurance_provider"] else missing
  let missing := if !(pyGet benefits "policy_number").truthy then
      missing ++ ["policy_number"] else missing
  let missing := if !(pyGet benefits "deductibles").truthy
      || (pyGet benefits "deductibles").asList.length = 0 then
      missing ++ ["deductibles"] else missing
  let missing := if !(pyGet benefits "copays").truthy
      || (pyGet benefits "copays").asList.length = 0 then
      missing ++ ["copays"] else missing
  let missing := if !(pyGet benefits "out_of_pocket_max_individual").truthy then
      missing ++ ["out_of_pocket_maximums"] else missing
  let missing := if !(pyGet benefits "services").truthy
      || (pyGet benefits "services").asList.length < 3 then
      missing ++ ["service_coverage"] else missing
  let missing := if isNone (pyGet benefits "in_network_providers")
      && isNone (pyGet benefits "network_notes") then
      missing ++ ["network_information"] else missing
  let missing := if !(pyGet benefits "exclusions").truthy
      || (pyGet benefits "exclusions").asList.length = 0 then
      missing ++ ["exclusions"] else missing
  missing

/-! ## `_normalize_benefits_data` (identical in `benefits_agent.py` and
`benefits_agent_cot.py`; the CoT variant's `data.get(..., [])` defaults are
the ones embedded) -/

def networkMapping : List (String × String) :=
  [("in-network", "in_network"), ("in network", "in_network"),
   ("out-of-network", "out_of_network"), ("out of network", "out_of_network"),
   ("both", "both")]

def serviceMapping : List (String × String) :=
  [("primary care", "primary_care"), ("primary care physician", "primary_care"),
   ("specialist", "specialist"), ("specialist visit", "specialist"),
   ("emergency", "emergency"), ("emergency room", "emergency"),
   ("urgent care", "urgent_care"), ("preventive care", "preventive_care"),
   ("preventive", "preventive_care"), ("prescription", "prescription"),
   ("prescription drugs", "prescription")]

def pyLower (s : String) : String := s.map Char.toLower

def strStrip (s : String) : String := (pyStrip s.toList).asString

/-- `mapping.get(value_lower, value_lower)`. -/
def lookupDefault (m : List (String × String)) (k : String) : String :=
  match m.find? (fun p => p.1 = k) with
  | some p => p.2
  | Option.none => k

def normalize_network (v : PyVal) : PyVal :=
  match v with
  | .str s => .str (lookupDefault networkMapping (strStrip (pyLower s)))
  | _ => v

def normalize_service (v : PyVal) : PyVal :=
  match v with
  | .str s => .str (lookupDefault serviceMapping (strStrip (pyLower s)))
  | _ => v

/-- `if key in record: record[key] = f(record[key])` on a sub-record. -/
def normSub (f : PyVal → PyVal) (key : String) (r : PyVal) : PyVal :=
  match r with
  | .dict kvs =>
    if pyContains kvs key then .dict (pySet kvs key (f (pyGet kvs key)))
    else r
  | _ => r

/-- Normalisation of one `services` entry (`service_name`, then the nested
`copay` sub-record when present and truthy). -/
def normalizeServiceEntry (s : PyVal) : PyVal :=
  let s := normSub normalize_service "service_name" s
  match s with
  | .dict kvs =>
    if pyContains kvs "copay" && (pyGet kvs "copay").truthy then
      let cp := pyGet kvs "copay"
      let cp := normSub normalize_network "network" cp
      let cp := normSub normalize_service "service_type" cp
      .dict (pySet kvs "copay" cp)
    else s
  | _ => s

/-- `if key in data: for entry in data.get(key, []): ...` — the in-place
element mutation is modelled as re-assigning the mapped list. -/
def normListField (f : PyVal → PyVal) (key : String) (data : PyDict) : PyDict :=
  if pyContains data key then
    pySet data key (PyVal.list ((pyGet data key).asList.map f))
  else data

def normalize_benefits_data (data : PyDict) : PyDict :=
  let data := normListField (normSub normalize_network "network") "deductibles" data
  let data := normListField
    (fun c => normSub normalize_service "service_type"
      (normSub normalize_network "network" c)) "copays" data
  let data := normListField (normSub normalize_network "network") "coinsurance" data
  let data := normListField (normSub normalize_network "network") "coverage_limits" data
  normListField normalizeServiceEntry "services" data

/-! ## CoT per-step merges -/

def PyVal.isList : PyVal → Bool
  | .list _ => true
  | _ => false

def PyVal.isDict : PyVal → Bool
  | .dict _ => true
  | _ => false

/-- The CoT dedup for complex lists: keep the first item for each canonical
`json.dumps(item, sort_keys=True)` rendering. -/
def dedupByDump (items : List PyVal) : List PyVal :=
  (items.foldl
    (fun (st : List String × List PyVal) item =>
      let s := pyDump item
      if st.1.contains s then st else (st.1 ++ [s], st.2 ++ [item]))
    ([], [])).2

/-- One `key, value` item of the benefits CoT per-step merge
(`benefits_agent_cot.py`, `extract_from_document` lines 501–533). -/
def cotMergeItemB (acc : PyDict) (kv : String × PyVal) : PyDict :=
  let key := kv.1
  let value := kv.2
  if !pyContains acc key || !(pyGet acc key).truthy then
    pySet acc key value
  else if value.isList && value.truthy then
    if (["deductibles", "copays", "coinsurance", "coverage_limits",
        "services"] : List String).contains key then
      if key = "services" then
        pySet acc key (PyVal.list
          (mergeByKey "service_name" true (pyGet acc key).asList value.asList))
      else
        pySet acc key (PyVal.list
          (dedupByDump ((pyGet acc key).asList ++ value.asList)))
    else if (["exclusions", "preauth_required_services",
        "special_programs"] : List String).contains key then
      pySet acc key (PyVal.list
        (setUnion (pyGet acc key).asList value.asList))
    else acc
  else if value.truthy then pySet acc key value
  else acc

/-- The `for key, value in step_result.items()` merge of
`benefits_agent_cot.py` `extract_from_document` (lines 501–533). -/
def cotMergeStepB (allResults stepResult : PyDict) : PyDict :=
  stepResult.foldl cotMergeItemB allResults

/-- One `key, value` item of the EOB CoT per-step merge
(`eob_agent_cot.py`, `extract_from_document` lines 393–420). -/
def cotMergeItemE (acc : PyDict) (kv : String × PyVal) : PyDict :=
  let key := kv.1
  let value := kv.2
  if !pyContains acc key || !(pyGet acc key).truthy then
    pySet acc key value
  else if value.isList && value.truthy then
    if key = "services" then
      pySet acc key (PyVal.list
        (mergeByKey "service_description" false
          (pyGet acc key).asList value.asList))
    else if (["alerts", "discrepancies"] : List String).contains key then
      pySet acc key (PyVal.list
        (setUnion (pyGet acc key).asList value.asList))
    else acc
  else if value.isDict && key = "coverage_breakdown" then
    if !(pyGet acc key).truthy
        || !(pyGet (pyGet acc key).asDict "total_billed").truthy then
      pySet acc key value
    else
      pySet acc key (PyVal.dict
        (value.asDict.foldl
          (fun b p =>
            if p.2.truthy
                && (!(pyGet b p.1).truthy || (pyGet b p.1).eqZero) then
              pySet b p.1 p.2
            else b)
          (pyGet acc key).asDict))
  else if value.truthy then pySet acc key value
  else acc

/-- The `for key, value in step_result.items()` merge of
`eob_agent_cot.py` `extract_from_document` (lines 393–420). -/
def cotMergeStepE (allResults stepResult : PyDict) : PyDict :=
  stepResult.foldl cotMergeItemE allResults

/-! ## Chunk dictionaries (`chunk_index → text`) -/

def natContains (d : List (Nat × String)) (k : Nat) : Bool :=
  d.any (fun p => p.1 = k)

def natSet : List (Nat × String) → Nat → String → List (Nat × String)
  | [], k, v => [(k, v)]
  | p :: tl, k, v => if p.1 = k then (k, v) :: tl else p :: natSet tl k v

def natGet (d : List (Nat × String)) (k : Nat) : String :=
  match d.find? (fun p => p.1 = k) with
  | some p => p.2
  | Option.none => ""

def natUpdate (d other : List (Nat × String)) : List (Nat × String) :=
  other.foldl (fun a p => natSet a p.1 p.2) d

/-- `sorted(d.items())` (keys are unique, so sorting on the key alone
matches Python's tuple order). -/
def sortByKey (d : List (Nat × String)) : List (Nat × String) :=
  sortBy (fun a b => a.1 ≤ b.1) d

def joinNN (xs : List String) : String := String.intercalate "\n\n" xs

/-! ## Seed-query tables (`STEP_QUERIES` / `EOB_STEP_QUERIES`) and the
step-name lists (`list(STEP_PROMPTS.keys())`) -/

def STEP_NAMES : List String :=
  ["step1_basic_info", "step2_deductibles", "step3_copays",
   "step4_coinsurance", "step5_out_of_pocket", "step6_service_coverage",
   "step7_network", "step8_preauth", "step9_exclusions", "step10_additional"]

/-- `STEP_QUERIES.get(step_name, [])`. -/
def STEP_QUERIES : String → List String
  | "step1_basic_info" =>
    ["plan name insurance policy", "insurance provider company name",
     "policy number member ID", "group number",
     "effective date coverage begins", "expiration date coverage ends"]
  | "step2_deductibles" =>
    ["deductible amount", "annual deductible", "individual deductible",
     "family deductible", "in-network deductible", "out-of-network deductible"]
  | "step3_copays" =>
    ["copay co-pay copayment", "primary care copay", "specialist copay",
     "emergency room copay", "urgent care copay", "prescription copay"]
  | "step4_coinsurance" =>
    ["coinsurance percentage", "coinsurance after deductible",
     "in-network coinsurance", "out-of-network coinsurance"]
  | "step5_out_of_pocket" =>
    ["out of pocket maximum", "OOP maximum", "individual out of pocket",
     "family out of pocket", "maximum out of pocket"]
  | "step6_service_coverage" =>
    ["covered services", "preventive care coverage", "emergency services",
     "hospitalization coverage", "mental health services",
     "prescription drug coverage"]
  | "step7_network" =>
    ["network providers", "in-network providers", "out-of-network coverage",
     "provider directory", "network information"]
  | "step8_preauth" =>
    ["pre-authorization required", "preauthorization", "prior authorization",
     "authorization required", "pre-auth"]
  | "step9_exclusions" =>
    ["exclusions not covered", "excluded services", "limitations",
     "not covered", "exclusions"]
  | "step10_additional" =>
    ["special programs", "wellness programs", "additional benefits",
     "plan benefits", "programs included"]
  | _ => []

def EOB_STEP_NAMES : List String :=
  ["step1_member_info", "step2_claim_info", "step3_financial_summary",
   "step4_service_details", "step5_coverage_breakdown",
   "step6_insurance_info", "step7_alerts_discrepancies"]

/-- `EOB_STEP_QUERIES.get(step_name, [])`. -/
def EOB_STEP_QUERIES : String → List String
  | "step1_member_info" =>
    ["member name patient name", "member address",
     "member ID identification number", "group number",
     "policy number member ID"]
  | "step2_claim_info" =>
    ["claim number", "claim date service date", "provider name",
     "provider NPI", "healthcare provider"]
  | "step3_financial_summary" =>
    ["total billed", "total benefits approved", "amount you may owe",
     "amount you owe provider", "financial summary"]
  | "step4_service_details" =>
    ["service description", "service date", "amount billed", "not covered",
     "covered amount", "CPT code", "ICD-10 code"]
  | "step5_coverage_breakdown" =>
    ["coverage breakdown", "total not covered", "total covered",
     "coinsurance", "deductions", "PPO plan reductions"]
  | "step6_insurance_info" =>
    ["insurance provider", "insurance company", "plan name",
     "policy number", "explanation of benefits"]
  | "step7_alerts_discrepancies" =>
    ["discrepancy", "alert", "mismatch", "duplicate", "error",
     "review needed"]
  | _ => []

/-! ## CoT orchestrators

The two external collaborators are abstracted as oracles, reduced to the
data the code actually reads from their responses:

* `fetchAll` — the broad `query_private` call of
  `_get_all_document_chunks_dict`: the matches' `(chunk_index, text)`
  metadata pairs, or the raised error;
* `selQuery` — one seed-query `query_private` call inside
  `_get_relevant_chunk_indices_for_step`: the matches' `chunk_index` values
  (nothing else of the response is read), or the raised error;
* `extractStep` — `_extract_step(step_name, text, previous_results)`: the
  parsed JSON dict, or the raised error (unknown step, LLM transport
  failure, or JSON-parse failure after all fallbacks — the error message
  carries a truncated raw-text sample; only the fact that it raises matters
  here). -/
structure CotEnv where
  fetchAll : Except String (List (Nat × String))
  selQuery : String → Except String (List Nat)
  extractStep : String → String → PyDict → Except String PyDict

/-- `_get_all_document_chunks_dict`: build the `chunk_index → text` dict
(`if text: chunks[chunk_index] = text`); any failure is caught and yields
the empty dict. -/
def getAllDocumentChunksDict (env : CotEnv) : List (Nat × String) :=
  match env.fetchAll with
  | .error _ => []
  | .ok ms =>
    ms.foldl (fun d m => if m.2 ≠ "" then natSet d m.1 m.2 else d) []

/-- The per-seed-query fold inside `_get_relevant_chunk_indices_for_step`:
a failing query is skipped (`except: continue`), successful matches
contribute the chunk indices that exist in the cached dict.  The Python
`set` is modelled as a first-occurrence dedup list (each use is either
`sorted(...)` or a membership test, both order-independent). -/
def selectorGo (env : CotEnv) (allChunks : List (Nat × String))
    (queries : List String) : List Nat :=
  queries.foldl
    (fun idxs q =>
      match env.selQuery q with
      | .error _ => idxs
      | .ok ms =>
        ms.foldl
          (fun a i =>
            if natContains allChunks i && !a.contains i then a ++ [i] else a)
          idxs)
    []

/-- `_get_relevant_chunk_indices_for_step` (identical in both CoT agents up
to the query table): up to 3 seed queries. -/
def getRelevantChunkIndicesForStep (env : CotEnv)
    (stepQueries : String → List String) (stepName : String)
    (allChunks : List (Nat × String)) : List Nat :=
  selectorGo env allChunks ((stepQueries stepName).take 3)

/-- Build the step's prompt text: targeted chunks first (sorted by index),
then the remaining chunks (sorted by index); all chunks when the selector
returned nothing. -/
def stepTextFor (indices : List Nat) (allChunks : List (Nat × String)) :
    String :=
  if !indices.isEmpty then
    let targeted := ((sortBy (fun a b => a ≤ b) indices).filter
      (natContains allChunks)).map (natGet allChunks)
    let remaining := (((sortByKey allChunks).map (fun p => p.1)).filter
      (fun i => !indices.contains i)).map (natGet allChunks)
    joinNN (targeted ++ remaining)
  else joinNN ((sortByKey allChunks).map (fun p => p.2))

/-- One iteration of the benefits CoT step loop (the whole `try` body; the
only exception that can reach the `except` handler is the one raised by
`_extract_step`, and it leaves the accumulated results untouched). -/
def benefitsStepOnce (env : CotEnv) (allChunks : List (Nat × String))
    (acc : PyDict) (stepName : String) : PyDict :=
  let indices := getRelevantChunkIndicesForStep env STEP_QUERIES stepName allChunks
  match env.extractStep stepName (stepTextFor indices allChunks) acc with
  | .error _ => acc
  | .ok r => cotMergeStepB acc r

/-- `BenefitsExtractionAgentCoT.extract_from_document`; `now` stands for
`datetime.now().isoformat()`. -/
def benefits_extract_from_document (env : CotEnv)
    (user_id document_id now : String) (steps : Option (List String)) :
    PyDict :=
  let steps := steps.getD STEP_NAMES
  let allChunks := getAllDocumentChunksDict env
  let allResults := steps.foldl (benefitsStepOnce env allChunks) []
  let allResults :=
    if (pyGet allResults "plan_name").truthy then allResults
    else
      match env.extractStep "step1_basic_info"
          (joinNN ((sortByKey allChunks).map (fun p => p.2))) [] with
      | .ok r =>
        if (pyGet r "plan_name").truthy then
          pySet allResults "plan_name" (pyGet r "plan_name")
        else
          pySet allResults "plan_name"
            (PyVal.str ("Unknown Plan - " ++ document_id))
      | .error _ =>
        pySet allResults "plan_name"
          (PyVal.str ("Unknown Plan - " ++ document_id))
  let allResults := pySet allResults "user_id" (PyVal.str user_id)
  let allResults := pySet allResults "source_document_id" (PyVal.str document_id)
  let allResults := pySet allResults "extracted_date" (PyVal.str now)
  normalize_benefits_data allResults

/-! ## EOB normalisation and alert calculation -/

def eobAmountFields : List String :=
  ["total_billed", "total_benefits_approved", "amount_you_owe",
   "total_not_covered", "total_covered_before_deductions",
   "total_coinsurance", "total_deductions"]

/-- `re.sub(r'[$,]', '', s)`. -/
def stripDollarComma (s : String) : String :=
  (s.toList.filter (fun c => c ≠ '$' && c ≠ ',')).asString

/-- `float(s)` on a decimal literal (optional sign, digits, fraction,
exponent; surrounding whitespace stripped).  `inf`/`nan`/underscores are not
modelled; no theorem depends on parse outcomes. -/
def parsePyFloat (s : String) : Option ℚ :=
  let cs := pyStrip s.toList
  let (sign, cs) := match cs with
    | '-' :: tl => ((-1 : ℚ), tl)
    | '+' :: tl => ((1 : ℚ), tl)
    | l => ((1 : ℚ), l)
  let intPart := cs.takeWhile Char.isDigit
  let cs := cs.dropWhile Char.isDigit
  let (fracPart, cs) := match cs with
    | '.' :: tl => (tl.takeWhile Char.isDigit, tl.dropWhile Char.isDigit)
    | l => ([], l)
  if intPart.isEmpty && fracPart.isEmpty then Option.none else
  let digitsVal : List Char → ℕ :=
    fun l => l.foldl (fun a c => 10 * a + (c.toNat - '0'.toNat)) 0
  let mant : ℚ := (digitsVal intPart : ℚ)
    + (digitsVal fracPart : ℚ) / ((10 : ℚ) ^ fracPart.length)
  match cs with
  | [] => some (sign * mant)
  | e :: tl =>
    if e = 'e' || e = 'E' then
      let (esign, tl) := match tl with
        | '-' :: tl2 => ((-1 : ℤ), tl2)
        | '+' :: tl2 => ((1 : ℤ), tl2)
        | l => ((1 : ℤ), l)
      let eDigits := tl.takeWhile Char.isDigit
      let rest := tl.dropWhile Char.isDigit
      if eDigits.isEmpty || !rest.isEmpty then Option.none
      else some (sign * mant * (10 : ℚ) ^ (esign * (digitsVal eDigits : ℤ)))
    else Option.none

/-- The amount-field coercion of `_normalize_eob_data`: strings are parsed
(`$`/`,` removed) with `0.0` on failure; ints/floats (and bools, which are
ints in Python) pass through; anything else becomes `0.0`. -/
def coerceAmount : PyVal → PyVal
  | .str s =>
    match parsePyFloat (stripDollarComma s) with
    | some q => .num q
    | Option.none => .num 0
  | .num q => .num q
  | .bool b => .bool b
  | _ => .num 0

/-- Exact match of `n` digits. -/
def takeDigitsExact (n : Nat) (cs : List Char) :
    Option (List Char × List Char) :=
  let d := cs.take n
  if d.length = n && d.all Char.isDigit then some (d, cs.drop n)
  else Option.none

/-- Match `\d{l1} sep \d{l2} sep \d{l3}` at the head of `cs`. -/
def matchDateAt (l1 : Nat) (sep : Char) (l2 l3 : Nat) (cs : List Char) :
    Option (String × String × String) :=
  match takeDigitsExact l1 cs with
  | Option.none => Option.none
  | some (g1, cs) =>
    match cs with
    | c :: cs =>
      if c = sep then
        match takeDigitsExact l2 cs with
        | Option.none => Option.none
        | some (g2, cs) =>
          match cs with
          | c2 :: cs =>
            if c2 = sep then
              match takeDigitsExact l3 cs with
              | Option.none => Option.none
              | some (g3, _) => some (g1.asString, g2.asString, g3.asString)
            else Option.none
          | [] => Option.none
      else Option.none
    | [] => Option.none

/-- `re.search` for the date patterns: leftmost match. -/
def searchDate (l1 : Nat) (sep : Char) (l2 l3 : Nat) :
    List Char → Option (String × String × String)
  | [] => Option.none
  | c :: rest =>
    match matchDateAt l1 sep l2 l3 (c :: rest) with
    | some g => some g
    | Option.none => searchDate l1 sep l2 l3 rest

/-- `_normalize_date`: try `YYYY-MM-DD`, `MM/DD/YYYY`, `YYYY/MM/DD` in
order; on a match, return the string unchanged if it contains `-`, reformat
if it contains `/`, otherwise fall through to the next pattern. -/
def normalize_date (dateStr : String) : String :=
  if dateStr = "" then ""
  else
    let cs := dateStr.toList
    let hasDash := cs.contains '-'
    let hasSlash := cs.contains '/'
    let handle := fun (g : String × String × String) (next : String) =>
      if hasDash then dateStr
      else if hasSlash then
        if g.1.length = 4 then g.1 ++ "-" ++ g.2.1 ++ "-" ++ g.2.2
        else g.2.2 ++ "-" ++ g.1 ++ "-" ++ g.2.1
      else next
    let r3 := match searchDate 4 '/' 2 2 cs with
      | some g => handle g dateStr
      | Option.none => dateStr
    let r2 := match searchDate 2 '/' 2 4 cs with
      | some g => handle g r3
      | Option.none => r3
    match searchDate 4 '-' 2 2 cs with
    | some g => handle g r2
    | Option.none => r2

/-- `_normalize_date` applied to a field value (only truthy values reach it;
non-string values would raise in `re.search` and are passed through here). -/
def normalizeDateVal : PyVal → PyVal
  | .str s => .str (normalize_date s)
  | v => v

def normAmountFieldIn (kvs : PyDict) (f : String) : PyDict :=
  if pyContains kvs f then pySet kvs f (coerceAmount (pyGet kvs f)) else kvs

/-- `_normalize_eob_data`. -/
def normalize_eob_data (data : PyDict) : PyDict :=
  let data := eobAmountFields.foldl normAmountFieldIn data
  let data :=
    if pyContains data "services" then
      pySet data "services" (PyVal.list ((pyGet data "services").asList.map
        (fun s => match s with
          | .dict kvs =>
            PyVal.dict ((["amount_billed", "not_covered", "covered"] :
              List String).foldl normAmountFieldIn kvs)
          | v => v)))
    else data
  let data :=
    if pyContains data "coverage_breakdown"
        && (pyGet data "coverage_breakdown").truthy then
      pySet data "coverage_breakdown"
        (match pyGet data "coverage_breakdown" with
          | .dict kvs => PyVal.dict (eobAmountFields.foldl normAmountFieldIn kvs)
          | v => v)
    else data
  let data :=
    if pyContains data "claim_date" && (pyGet data "claim_date").truthy then
      pySet data "claim_date" (normalizeDateVal (pyGet data "claim_date"))
    else data
  if pyContains data "services" then
    pySet data "services" (PyVal.list ((pyGet data "services").asList.map
      (fun s => match s with
        | .dict kvs =>
          if pyContains kvs "service_date"
              && (pyGet kvs "service_date").truthy then
            PyVal.dict (pySet kvs "service_date"
              (normalizeDateVal (pyGet kvs "service_date")))
          else s
        | v => v)))
  else data

/-- Numeric read `data.get(k, 0.0)` as used in the alert arithmetic
(non-numeric values would raise in Python's comparisons; coerced to `0`). -/
def pyNumGet (d : PyDict) (k : String) : ℚ :=
  if pyContains d k then
    match pyGet d k with
    | .num q => q
    | .bool b => if b then 1 else 0
    | _ => 0
  else 0

/-- `f"{q:.2f}"` with `$` handling done by the caller; rendered from the
exact rational (tie behaviour of binary floats is not modelled; no theorem
depends on these strings). -/
def formatQ2 (q : ℚ) : String :=
  let cents : ℤ := round (q * 100)
  let a := cents.natAbs
  (if cents < 0 then "-" else "") ++ toString (a / 100) ++ "." ++
    (if a % 100 < 10 then "0" ++ toString (a % 100) else toString (a % 100))

/-- `str(value)` where it feeds a joined string (values are strings in the
well-typed universe; others rendered canonically). -/
def pyToStr : PyVal → String
  | .str s => s
  | v => pyDump v

/-- `_calculate_alerts_and_discrepancies`.  The duplicate-service scan
iterates a Python `set` (unspecified order, modelled as first-occurrence
order); no theorem depends on the generated strings. -/
def calculate_alerts_and_discrepancies (data : PyDict) : PyDict :=
  let alerts := (pyGet data "alerts").asList
  let discrepancies := (pyGet data "discrepancies").asList
  let amount_owed := pyNumGet data "amount_you_owe"
  let alerts :=
    if amount_owed > 1000 then
      if alerts.any (pyEq (.str "High amount")) then alerts
      else alerts ++ [PyVal.str "High amount"]
    else alerts
  let total_billed := pyNumGet data "total_billed"
  let total_approved := pyNumGet data "total_benefits_approved"
  let calculated_owed := total_billed - total_approved
  let discrepancies :=
    if |calculated_owed - amount_owed| > 1 then
      let d := PyVal.str ("Amount mismatch: Expected $"
        ++ formatQ2 calculated_owed ++ " owed, but EOB shows $"
        ++ formatQ2 amount_owed)
      if discrepancies.any (pyEq d) then discrepancies
      else discrepancies ++ [d]
    else discrepancies
  let discrepancies :=
    if pyContains data "services" && (pyGet data "services").truthy then
      let svcs := (pyGet data "services").asList
      let billedTotal := (svcs.map
        (fun s => pyNumGet s.asDict "amount_billed")).sum
      if |billedTotal - total_billed| > 1 then
        let d := PyVal.str ("Service total mismatch: Services total $"
          ++ formatQ2 billedTotal ++ ", but EOB shows $"
          ++ formatQ2 total_billed)
        if discrepancies.any (pyEq d) then discrepancies
        else discrepancies ++ [d]
      else discrepancies
    else discrepancies
  let discrepancies :=
    if pyContains data "services" && (pyGet data "services").truthy then
      let svcs := (pyGet data "services").asList
      let descs := svcs.map (fun s =>
        if pyContains s.asDict "service_description" then
          pyGet s.asDict "service_description"
        else PyVal.str "")
      let uniq := descs.foldl
        (fun acc d => if acc.any (pyEq d) then acc else acc ++ [d]) []
      let duplicates := uniq.filter
        (fun d => 1 < (descs.filter (pyEq d)).length)
      if !duplicates.isEmpty then
        let d := PyVal.str ("Duplicate services found: "
          ++ String.intercalate ", " ((duplicates.take 3).map pyToStr))
        if discrepancies.any (pyEq d) then discrepancies
        else discrepancies ++ [d]
      else discrepancies
    else discrepancies
  let data := pySet data "alerts" (PyVal.list alerts)
  pySet data "discrepancies" (PyVal.list discrepancies)

/-- One iteration of the EOB CoT step loop. -/
def eobStepOnce (env : CotEnv) (allChunks : List (Nat × String))
    (acc : PyDict) (stepName : String) : PyDict :=
  let indices := getRelevantChunkIndicesForStep env EOB_STEP_QUERIES stepName allChunks
  match env.extractStep stepName (stepTextFor indices allChunks) acc with
  | .error _ => acc
  | .ok r => cotMergeStepE acc r

/-- `EOBExtractionAgentCoT.extract_from_document`. -/
def eob_extract_from_document (env : CotEnv)
    (user_id document_id now : String) (steps : Option (List String)) :
    PyDict :=
  let steps := steps.getD EOB_STEP_NAMES
  let allChunks := getAllDocumentChunksDict env
  let allResults := steps.foldl (eobStepOnce env allChunks) []
  let allResults :=
    if (pyGet allResults "member_name").truthy then allResults
    else pySet allResults "member_name" (PyVal.str "Unknown Member")
  let allResults :=
    if (pyGet allResults "claim_number").truthy then allResults
    else pySet allResults "claim_number" (PyVal.str document_id)
  let allResults :=
    if (pyGet allResults "provider_name").truthy then allResults
    else pySet allResults "provider_name" (PyVal.str "Weill Cornell Medicine")
  let allResults := pySet allResults "user_id" (PyVal.str user_id)
  let allResults := pySet allResults "source_document_id" (PyVal.str document_id)
  let allResults := pySet allResults "extracted_date" (PyVal.str now)
  calculate_alerts_and_discrepancies (normalize_eob_data allResults)

/-! ## `benefits_agent.py` — iterative extraction

Oracles:
* `queryPrivate` — a `query_private` call reduced to the matches'
  `(chunk_index, text)` pairs, or the raised error (in this code path no
  `try/except` guards the calls, so errors propagate);
* `extractFromText` — `extract_from_text(text, ..., focus_on_missing)`
  reduced to its outcome.

The returned `Nat` counts the `extract_from_text` invocations (the
"extraction passes"); it is model instrumentation, not program state. -/
structure IterEnv where
  queryPrivate : String → Except String (List (Nat × String))
  extractFromText : String → Option (List String) → Except String PyDict

/-- The fixed seed-query table of `_query_missing_information`. -/
def queryMapping : List (String × String) :=
  [("plan_name", "plan name insurance policy"),
   ("insurance_provider", "insurance company provider name"),
   ("policy_number", "policy number member ID group number"),
   ("deductibles", "deductible amount annual deductible"),
   ("copays", "copay co-pay copayment visit fee"),
   ("out_of_pocket_maximums", "out of pocket maximum OOP max limit"),
   ("service_coverage", "covered services benefits coverage medical services"),
   ("network_information", "network providers in-network out-of-network"),
   ("exclusions", "exclusions not covered excluded services limitations")]

/-- `_query_missing_information`: one `query_private` call per missing
category (unknown categories skipped); collect chunks not used yet. -/
def query_missing_information (env : IterEnv) (missing_info : List String)
    (used_indices : List Nat) : Except String (List (Nat × String)) :=
  missing_info.foldlM
    (fun additional mt =>
      match queryMapping.find? (fun p => p.1 = mt) with
      | Option.none => pure additional
      | some p => do
        let ms ← env.queryPrivate p.2
        return ms.foldl
          (fun add m =>
            if !used_indices.contains m.1 && m.2 ≠ "" then natSet add m.1 m.2
            else add)
          additional)
    []

/-- `_get_text_from_benefits`. -/
def get_text_from_benefits (benefits : PyDict) : String :=
  let parts : List String := []
  let parts := if (pyGet benefits "plan_name").truthy then
      parts ++ ["Plan: " ++ pyToStr (pyGet benefits "plan_name")] else parts
  let parts := if (pyGet benefits "insurance_provider").truthy then
      parts ++ ["Provider: " ++ pyToStr (pyGet benefits "insurance_provider")]
    else parts
  let parts := if (pyGet benefits "policy_number").truthy then
      parts ++ ["Policy: " ++ pyToStr (pyGet benefits "policy_number")]
    else parts
  let parts := if (pyGet benefits "deductibles").truthy then
      parts ++ ["Deductibles: " ++ pyToStr (pyGet benefits "deductibles")]
    else parts
  let parts := if (pyGet benefits "copays").truthy then
      parts ++ ["Copays: " ++ pyToStr (pyGet benefits "copays")] else parts
  let parts := if (pyGet benefits "services").truthy then
      parts ++ ["Services: " ++ pyToStr (pyGet benefits "services")] else parts
  String.intercalate "\n" parts

/-- The focused re-extraction prompt built by the refinement pass
(`combined_text` in the source). -/
def refineText (current : PyDict) (missing : List String)
    (allAvailable : List (Nat × String)) : String :=
  "--- PREVIOUSLY EXTRACTED INFORMATION (DO NOT DUPLICATE, ONLY ADD MISSING FIELDS) ---\n"
  ++ get_text_from_benefits current
  ++ "\n\n--- FULL DOCUMENT TEXT (FOCUS ON FINDING: "
  ++ String.intercalate ", " missing
  ++ ") ---\n" ++ joinNN ((sortByKey allAvailable).map (fun p => p.2))

/-- The outcome of one refinement iteration: stop the loop (success, break
or propagated error) with the number of `extract_from_text` calls the pass
made, or continue with updated state (one call made). -/
inductive RefineOutcome where
  | stop (r : Except String PyDict) (callsMade : Nat)
  | next (allChunks : List (Nat × String)) (used : List Nat) (merged : PyDict)

/-- One iteration of the `for iteration in range(2, max_iterations + 1)`
loop of `_extract_iteratively`: analyze missing categories, query for extra
chunks, re-extract with a focused prompt, merge; on stagnation
(`len(new_missing) >= len(missing_info)`) the freshly merged result is
discarded and the loop breaks with the previous `current_benefits`. -/
def refinePass (env : IterEnv) (allChunks : List (Nat × String))
    (used : List Nat) (current : PyDict) : RefineOutcome :=
  let missing_info := analyze_missing_information current
  if missing_info.isEmpty then .stop (.ok current) 0
  else
    match query_missing_information env missing_info used with
    | .error e => .stop (.error e) 0
    | .ok additional =>
      match env.extractFromText
          (refineText current missing_info (natUpdate allChunks additional))
          (some missing_info) with
      | .error e => .stop (.error e) 1
      | .ok refined =>
        let merged := merge_benefits current refined
        let newMissing := analyze_missing_information merged
        if missing_info.length ≤ newMissing.length then .stop (.ok current) 1
        else if !additional.isEmpty then
          .next (natUpdate allChunks additional)
            (used ++ ((additional.map (fun p => p.1)).filter
              (fun i => !used.contains i)))
            merged
        else .next allChunks used merged

/-- The refinement loop, with the remaining iteration budget as fuel and the
running `extract_from_text` call count as instrumentation. -/
def refineLoop (env : IterEnv) :
    Nat → List (Nat × String) → List Nat → PyDict → Nat →
    (Except String PyDict) × Nat
  | 0, _, _, current, count => (.ok current, count)
  | n + 1, allChunks, used, current, count =>
    match refinePass env allChunks used current with
    | .stop r calls => (r, count + calls)
    | .next allChunks' used' merged =>
      refineLoop env n allChunks' used' merged (count + 1)

/-- `_extract_iteratively`: gather all chunks, initial extraction pass over
all of them, then the bounded refinement loop. -/
def extract_iteratively (env : IterEnv) (document_id : String)
    (max_iterations : Nat) : (Except String PyDict) × Nat :=
  match env.queryPrivate "insurance benefits coverage plan" with
  | .error e => (.error e, 0)
  | .ok ms =>
    let allChunks := ms.foldl
      (fun d m => if m.2 ≠ "" && !natContains d m.1 then natSet d m.1 m.2 else d)
      []
    if allChunks.isEmpty then
      (.error ("No chunks found for document " ++ document_id), 0)
    else
      let fullText := joinNN ((sortByKey allChunks).map (fun p => p.2))
      match env.extractFromText fullText Option.none with
      | .error e => (.error e, 1)
      | .ok current =>
        refineLoop env (max_iterations - 1) allChunks
          (allChunks.map (fun p => p.1)) current 1

/-- `_extract_single_pass`: one broad query, all chunk texts sorted by index
(duplicate indices kept — this path collects a list, not a dict), one
extraction pass. -/
def extract_single_pass (env : IterEnv) (document_id : String) :
    (Except String PyDict) × Nat :=
  match env.queryPrivate "insurance benefits coverage plan" with
  | .error e => (.error e, 0)
  | .ok ms =>
    if ms.isEmpty then
      (.error ("Document " ++ document_id ++ " not found"), 0)
    else
      let chunkData := ms.filter (fun m => m.2 ≠ "")
      if chunkData.isEmpty then
        (.error ("No text content found in document " ++ document_id), 0)
      else
        let fullText := joinNN ((sortBy (fun a b => a.1 ≤ b.1) chunkData).map (fun p => p.2))
        (env.extractFromText fullText Option.none, 1)

/-- `BenefitsExtractionAgent.extract_from_document` (defaults:
`iterative=True`, `max_iterations=3`). -/
def benefits_agent_extract_from_document (env : IterEnv)
    (document_id : String) (iterative : Bool) (max_iterations : Nat) :
    (Except String PyDict) × Nat :=
  if iterative then extract_iteratively env document_id max_iterations
  else extract_single_pass env document_id

/-! ## `pinecone_store.py` — `query_private` filter construction -/

/-- The metadata filter `query_private` sends: the multi-tenancy
`user_id` constraint, an optional `doc_type` constraint, then
`filter_dict.update(additional_filter)`. -/
def query_private_filter (user_id : String) (doc_types : Option (List String))
    (additional_filter : Option PyDict) : PyDict :=
  let filter_dict : PyDict := [("user_id", PyVal.dict [("$eq", PyVal.str user_id)])]
  let filter_dict := match doc_types with
    | some dts =>
      if !dts.isEmpty then
        pySet filter_dict "doc_type"
          (PyVal.dict [("$in", PyVal.list (dts.map PyVal.str))])
      else filter_dict
    | Option.none => filter_dict
  match additional_filter with
  | some af => if !af.isEmpty then pyUpdate filter_dict af else filter_dict
  | Option.none => filter_dict

/-- The only `additional_filter` the pipeline's call sites pass:
`{"doc_id": {"$eq": document_id}}` (all `query_private` calls in
`benefits_agent.py`, `benefits_agent_cot.py` and `eob_agent_cot.py`). -/
def docIdFilter (document_id : String) : PyDict :=
  [("doc_id", PyVal.dict [("$eq", PyVal.str document_id)])]

/-- The bound every chunk of the sentence builder satisfies: within
`chunk_size`, or an overlap seed around one unavoidably-long sentence. -/
def senB (text : List Char) (cs ov : Int) (c : List Char) : Prop :=
  (c.length : Int) ≤ cs
  ∨ ∃ s ∈ splitSentences text, (c.length : Int) ≤ ov + 1 + s.length

/-- The bound for the paragraph builder. -/
def parB (text : List Char) (cs ov : Int) (c : List Char) : Prop :=
  (c.length : Int) ≤ cs
  ∨ ∃ p ∈ pySplit '\n' '\n' text, (c.length : Int) ≤ ov + 2 + p.length

/-! ## Well-typedness hypotheses for the merge invariants -/

/-- A keyed record list as the merges expect it: every record's natural key
is truthy and the keys are pairwise distinct under Python `==`. -/
def svcWellFormed (keyName : String) (l : List PyVal) : Prop :=
  (∀ rec ∈ l, (recKey keyName rec).truthy = true)
  ∧ List.Pairwise
      (fun a b => pyEq (recKey keyName a) (recKey keyName b) = false) l

/-- The accumulated dict's `services` field, when populated, is a
well-formed keyed record list. -/
def svcStateOk (keyName : String) (acc : PyDict) : Prop :=
  (pyGet acc "services").truthy = true →
    ∃ l, pyGet acc "services" = PyVal.list l ∧ svcWellFormed keyName l

/-- Every `services` item of a step result is a well-formed keyed record
list. -/
def svcItemsOk (keyName : String) (r : PyDict) : Prop :=
  ∀ kv ∈ r, kv.1 = "services" →
    ∃ l, kv.2 = PyVal.list l ∧ svcWellFormed keyName l

/-- The accumulated dict's `coverage_breakdown`, when populated, is a dict
with a truthy `total_billed`. -/
def cbStateOk (acc : PyDict) : Prop :=
  (pyGet acc "coverage_breakdown").truthy = true →
    ∃ kvs, pyGet acc "coverage_breakdown" = PyVal.dict kvs
      ∧ (pyGet kvs "total_billed").truthy = true

/-- Every truthy `coverage_breakdown` item of a step result is a dict with
a truthy `total_billed`. -/
def cbItemsOk (r : PyDict) : Prop :=
  ∀ kv ∈ r, kv.1 = "coverage_breakdown" → kv.2.truthy = true →
    ∃ kvs, kv.2 = PyVal.dict kvs ∧ (pyGet kvs "total_billed").truthy = true

/-! # Theorems -/

/-! ## C10 — tenant scoping of `query_private` -/

theorem pyUpdate_get_of_not_contains (d af : PyDict) (k : String)
    (h : pyContains af k = false) :
    pyGet (pyUpdate d af) k = pyGet d k := by
  induction af generalizing d with
  | nil => rfl
  | cons p tl ih =>
    rw [pyContains] at h
    simp only [Bool.or_eq_false_iff, decide_eq_false_iff_not] at h
    show pyGet (pyUpdate (pySet d p.1 p.2) tl) k = pyGet d k
    rw [ih _ (by simpa using h.2), pyGet_set_ne _ _ _ _ h.1]

/-- C10: every filter `query_private` sends carries the caller's `user_id`
equality constraint: the base filter pins `user_id`, the optional doc-type
constraint is added under a different key, and `additional_filter` is merged
by `dict.update`, which cannot drop the constraint as long as it has no
`"user_id"` key of its own; the pipeline call sites pass only a
`doc_id` filter, which has none. -/
theorem C10_tenant_scoping (uid did : String) (dts : Option (List String))
    (af : PyDict) (haf : pyContains af "user_id" = false) :
    pyGet (query_private_filter uid dts (some af)) "user_id"
        = PyVal.dict [("$eq", PyVal.str uid)]
    ∧ pyGet (query_private_filter uid dts Option.none) "user_id"
        = PyVal.dict [("$eq", PyVal.str uid)]
    ∧ pyContains (docIdFilter did) "user_id" = false := by
  have hbase : ∀ dts' : Option (List String), pyGet
      (match dts' with
        | some l =>
          if !l.isEmpty then
            pySet [("user_id", PyVal.dict [("$eq", PyVal.str uid)])] "doc_type"
              (PyVal.dict [("$in", PyVal.list (l.map PyVal.str))])
          else [("user_id", PyVal.dict [("$eq", PyVal.str uid)])]
        | Option.none => [("user_id", PyVal.dict [("$eq", PyVal.str uid)])])
      "user_id" = PyVal.dict [("$eq", PyVal.str uid)] := by
    intro dts'
    match dts' with
    | Option.none => rfl
    | some l =>
      by_cases hl : l.isEmpty
      · simp [hl, pyGet]
      · simp only [hl, Bool.not_false, if_true]
        rw [pyGet_set_ne _ _ _ _ (by decide)]
        rfl
  refine ⟨?_, ?_, by simp [docIdFilter, pyContains]⟩
  · unfold query_private_filter
    by_cases hempty : af.isEmpty
    · simp only [hempty, Bool.not_true, if_false]
      exact hbase dts
    · simp only [hempty, Bool.not_false, if_true]
      rw [pyUpdate_get_of_not_contains _ _ _ haf]
      exact hbase dts
  · unfold query_private_filter
    exact hbase dts

/-! ## Chunker lemmas (slices, the fixed-window loop) -/

theorem pyIdx_le (n : Nat) (i : Int) : pyIdx n i ≤ n := by
  unfold pyIdx; split <;> omega

theorem pySlice_length (s : List Char) (a b : Int) :
    (pySlice s a b).length = pyIdx s.length b - pyIdx s.length a := by
  have := pyIdx_le s.length b
  simp [pySlice, List.length_drop, List.length_take]
  omega

/-- Dropping from a slice advances its start. -/
theorem pySlice_drop (s : List Char) (a b k : Int)
    (ha : 0 ≤ a) (hk : 0 ≤ k) :
    (pySlice s a b).drop k.toNat = pySlice s (a + k) b := by
  unfold pySlice
  rw [List.drop_drop]
  have hb := pyIdx_le s.length b
  have hlt : (s.take (pyIdx s.length b)).length = pyIdx s.length b := by
    simp [List.length_take]; omega
  by_cases h1 : (a + k).toNat ≤ s.length
  · have heq : pyIdx s.length a + k.toNat = pyIdx s.length (a + k) := by
      unfold pyIdx; split <;> split <;> omega
    rw [heq]
  · have h2 : pyIdx s.length (a + k) = s.length := by
      unfold pyIdx; split <;> omega
    have h4 : pyIdx s.length b ≤ pyIdx s.length a + k.toNat := by
      unfold pyIdx; split <;> split <;> omega
    rw [h2, List.drop_eq_nil_of_le (by rw [hlt]; exact h4),
      List.drop_eq_nil_of_le (by rw [hlt]; exact hb)]

/-- A slice and the tail from its end point reassemble the tail from its
start point. -/
theorem pySlice_append_drop (s : List Char) (a b : Int)
    (h0 : 0 ≤ a) (hab : a ≤ b) :
    pySlice s a b ++ s.drop b.toNat = s.drop a.toNat := by
  unfold pySlice
  have hb := pyIdx_le s.length b
  have ha' := pyIdx_le s.length a
  have hba : pyIdx s.length a ≤ pyIdx s.length b := by
    unfold pyIdx; split <;> split <;> omega
  rw [List.drop_take]
  have hdb : s.drop b.toNat = s.drop (pyIdx s.length b) := by
    by_cases h1 : b.toNat ≤ s.length
    · have hx : pyIdx s.length b = b.toNat := by unfold pyIdx; split <;> omega
      rw [hx]
    · have hx : pyIdx s.length b = s.length := by unfold pyIdx; split <;> omega
      rw [hx, List.drop_length, List.drop_eq_nil_of_le (by omega)]
  rw [hdb]
  have hstep : s.drop (pyIdx s.length b)
      = (s.drop (pyIdx s.length a)).drop (pyIdx s.length b - pyIdx s.length a) := by
    rw [List.drop_drop]; congr 1; omega
  rw [hstep, List.take_append_drop]
  by_cases h1 : a.toNat ≤ s.length
  · have hx : pyIdx s.length a = a.toNat := by unfold pyIdx; split <;> omega
    rw [hx]
  · have hx : pyIdx s.length a = s.length := by unfold pyIdx; split <;> omega
    rw [hx, List.drop_length, List.drop_eq_nil_of_le (by omega)]

theorem pyRfind_lt (s sub : List Char) (h : sub ≠ []) :
    pyRfind s sub < (s.length : Int) := by
  unfold pyRfind
  cases hg : ((List.range (s.length + 1)).filter
      (fun i => sub.isPrefixOf (s.drop i))).getLast? with
  | none => simp only []; omega
  | some i =>
    have hmem := List.mem_of_mem_getLast? hg
    rw [List.mem_filter] at hmem
    obtain ⟨hrange, hpref⟩ := hmem
    rw [List.mem_range] at hrange
    have hi : i ≠ s.length := by
      intro he
      rw [he, List.drop_length] at hpref
      cases sub with
      | nil => exact h rfl
      | cons x tl => simp [List.isPrefixOf] at hpref
    simp only []
    omega

theorem pyRfind_ge (s sub : List Char) : -1 ≤ pyRfind s sub := by
  unfold pyRfind
  cases hg : ((List.range (s.length + 1)).filter
      (fun i => sub.isPrefixOf (s.drop i))).getLast? with
  | none => simp only []; omega
  | some i => simp only []; omega

/-- One iteration of the fixed-window loop yields exactly the slice
`text[start : end]` for the `end` it reports, and (under the termination
conditions) `end` exceeds `start + overlap`, so the next start strictly
advances. -/
theorem chunkFixedStep_spec (text : List Char) (cs ov start : Int)
    (hcs : 1 ≤ cs) (hov : 0 ≤ ov) (hcso : 2 * ov ≤ cs) (hs : 0 ≤ start) :
    (chunkFixedStep text cs start).1
      = pySlice text start ((chunkFixedStep text cs start).2)
    ∧ start + ov + 1 ≤ (chunkFixedStep text cs start).2 := by
  unfold chunkFixedStep
  by_cases hend : start + cs < (text.length : Int)
  · simp only [hend, if_true]
    set chunk := pySlice text start (start + cs) with hchunk
    set se := max (pyRfind chunk ['.', ' '])
      (max (pyRfind chunk ['.', '\n'])
        (max (pyRfind chunk ['?', ' '])
          (max (pyRfind chunk ['!', ' '])
            (max (pyRfind chunk ['\n', '\n']) (pyRfind chunk ['\n'])))))
      with hse
    by_cases hsnap : 2 * se > cs
    · simp only [hsnap, if_true]
      have hlen : chunk.length = cs.toNat := by
        rw [hchunk, pySlice_length]
        unfold pyIdx; split <;> split <;> omega
      have h1 : se < (chunk.length : Int) := by
        rw [hse]
        simp only [max_lt_iff]
        exact ⟨pyRfind_lt chunk ['.', ' '] (by simp),
          pyRfind_lt chunk ['.', '\n'] (by simp),
          pyRfind_lt chunk ['?', ' '] (by simp),
          pyRfind_lt chunk ['!', ' '] (by simp),
          pyRfind_lt chunk ['\n', '\n'] (by simp),
          pyRfind_lt chunk ['\n'] (by simp)⟩
      have h2 : 1 ≤ se := by omega
      have hto : pyIdx chunk.length (se + 1) = (se + 1).toNat := by
        unfold pyIdx; split <;> omega
      have hchunk2 : pySliceTo chunk (se + 1) = chunk.take (se + 1).toNat := by
        unfold pySliceTo; rw [hto]
      have hlen2 : (pySliceTo chunk (se + 1)).length = (se + 1).toNat := by
        rw [hchunk2]
        simp only [List.length_take]
        omega
      have hA : pyIdx text.length start = start.toNat := by
        unfold pyIdx; split <;> omega
      have hB : pyIdx text.length (start + cs) = (start + cs).toNat := by
        unfold pyIdx; split <;> omega
      have hC : pyIdx text.length (start + se + 1) = (start + se + 1).toNat := by
        unfold pyIdx; split <;> omega
      have hkey : chunk.take (se + 1).toNat = pySlice text start (start + se + 1) := by
        rw [hchunk]
        unfold pySlice
        rw [hA, hB, hC, List.take_drop]
        congr 1
        rw [List.take_take]
        congr 1
        omega
      refine ⟨?_, ?_⟩
      · rw [hlen2, hchunk2, hkey]
        congr 1
        omega
      · rw [hlen2]
        omega
    · simp only [hsnap, if_false]
      exact ⟨trivial, by omega⟩
  · simp only [hend, if_false]
    exact ⟨trivial, by omega⟩


/-- Under `1 ≤ chunk_size`, `0 ≤ overlap` and `2 * overlap ≤ chunk_size`
the fixed-window loop finishes within its fuel. -/
theorem chunkFixedLoop_isSome (text : List Char) (cs ov : Int)
    (hcs : 1 ≤ cs) (hov : 0 ≤ ov) (hcso : 2 * ov ≤ cs) :
    ∀ fuel : Nat, ∀ start : Int, 0 ≤ start →
      (text.length : Int) < start + fuel →
      (chunkFixedLoop text cs ov fuel start).isSome := by
  intro fuel
  induction fuel with
  | zero =>
    intro start h0 hlt
    unfold chunkFixedLoop
    have hb : ¬ start < (text.length : Int) := by omega
    simp [hb]
  | succ n ih =>
    intro start h0 hlt
    unfold chunkFixedLoop
    by_cases hb : start < (text.length : Int)
    · simp only [hb, if_true]
      have hspec := chunkFixedStep_spec text cs ov start hcs hov hcso h0
      have hrec := ih ((chunkFixedStep text cs start).2 - ov)
        (by omega) (by omega)
      cases hm : chunkFixedLoop text cs ov n ((chunkFixedStep text cs start).2 - ov) with
      | none => rw [hm] at hrec; simp at hrec
      | some rest => simp only [hm]; rfl
    · simp only [hb, if_false]; rfl

/-- The raw (pre-strip) chunks of the fixed strategy reassemble the input:
dropping the first `overlap` characters of every chunk after the first and
concatenating recovers the text from the first window's start. -/
theorem chunkFixedLoop_reconstruct (text : List Char) (cs ov : Int)
    (hcs : 1 ≤ cs) (hov : 0 ≤ ov) (hcso : 2 * ov ≤ cs) :
    ∀ fuel : Nat, ∀ start : Int, ∀ raws, 0 ≤ start →
      chunkFixedLoop text cs ov fuel start = some raws →
      (raws.map (List.drop ov.toNat)).flatten = text.drop (start + ov).toNat := by
  intro fuel
  induction fuel with
  | zero =>
    intro start raws h0 h
    unfold chunkFixedLoop at h
    by_cases hb : start < (text.length : Int)
    · simp [hb] at h
    · simp only [hb, if_false, Option.some.injEq] at h
      subst h
      simp only [List.map_nil, List.flatten_nil]
      rw [List.drop_eq_nil_of_le (by omega)]
  | succ n ih =>
    intro start raws h0 h
    unfold chunkFixedLoop at h
    by_cases hb : start < (text.length : Int)
    · simp only [hb, if_true] at h
      cases hm : chunkFixedLoop text cs ov n ((chunkFixedStep text cs start).2 - ov) with
      | none => rw [hm] at h; cases h
      | some rest =>
        rw [hm] at h
        cases h
        have hspec := chunkFixedStep_spec text cs ov start hcs hov hcso h0
        have hrest := ih ((chunkFixedStep text cs start).2 - ov) rest (by omega) hm
        simp only [List.map_cons, List.flatten_cons]
        rw [hspec.1, pySlice_drop text start _ ov h0 hov]
        have he : (chunkFixedStep text cs start).2 - ov + ov
            = (chunkFixedStep text cs start).2 := by omega
        rw [he] at hrest
        rw [hrest]
        exact pySlice_append_drop text (start + ov) _ (by omega) (by omega)
    · simp only [hb, if_false] at h
      cases h
      simp only [List.map_nil, List.flatten_nil]
      rw [List.drop_eq_nil_of_le (by omega)]

/-! ## C4 — chunk reconstruction round-trip (refuted)

The returned chunks are `strip()`ed and the sentence/paragraph strategies
rejoin pieces with rewritten separators, so concatenating the returned
chunks and removing the overlap regions does not recover the input. -/

/-- C4 counterexample: one failing input per strategy.
* fixed: `"aaaa bbbb"`, `chunk_size=6`, `overlap=2` → chunks
  `["aaaa b", "bbbb", "b"]` (the second chunk's leading space was stripped);
  reconstruction gives `"aaaa bbb"`.
* sentence: `"Aa.\nBb. Cc."`, `chunk_size=8`, `overlap=0` → chunks
  `["Aa. Bb.", "Cc."]`; the `\n` between sentences was rewritten to a space
  and the delimiter before `"Cc."` was consumed.
* paragraph: `"Pa\n\nQb\n\nRc"`, `chunk_size=8`, `overlap=0` → chunks
  `["Pa\n\nQb", "Rc"]`; the separator before `"Rc"` is lost. -/
theorem C4_counterexample :
    (chunk_text "aaaa bbbb".toList 6 2 "fixed"
        = some ["aaaa b".toList, "bbbb".toList, "b".toList]
      ∧ reconstruct 2 ["aaaa b".toList, "bbbb".toList, "b".toList]
        ≠ "aaaa bbbb".toList)
    ∧ (chunk_text "Aa.\nBb. Cc.".toList 8 0 "sentence"
        = some ["Aa. Bb.".toList, "Cc.".toList]
      ∧ reconstruct 0 ["Aa. Bb.".toList, "Cc.".toList] ≠ "Aa.\nBb. Cc.".toList)
    ∧ (chunk_text "Pa\n\nQb\n\nRc".toList 8 0 "paragraph"
        = some ["Pa\n\nQb".toList, "Rc".toList]
      ∧ reconstruct 0 ["Pa\n\nQb".toList, "Rc".toList]
        ≠ "Pa\n\nQb\n\nRc".toList) := by
  decide

/-! ## C5 — chunker totality (refuted for the fixed strategy) -/

/-- C5 counterexample: with `chunk_size=1`, `chunk_overlap=1` (well-formed
ints) on the two-character input `"aa"`, the `_chunk_fixed` `while` loop
never advances: from `start = 0` the iteration computes `end = 1` and
`start = end - overlap = 0` again while `start < len(text)` stays true, so
the source loop runs forever (the fuelled model returns `none` however much
fuel it is given — witnessed here by the one-step fixpoint). -/
theorem C5_counterexample :
    chunk_text "aa".toList 1 1 "fixed" = Option.none
    ∧ (chunkFixedStep "aa".toList 1 0).2 - 1 = 0
    ∧ ((0 : Int) < ("aa".toList.length : Int)) := by
  decide

/-- C5 amended: `_chunk_text` is total for the sentence and paragraph
strategies and for inputs no longer than `chunk_size`; empty input yields the
single empty chunk; the fixed-window loop terminates whenever
`1 ≤ chunk_size`, `0 ≤ chunk_overlap` and `2 * chunk_overlap ≤ chunk_size`
(each iteration then advances the window start by at least one), but not for
every well-formed argument pair. -/
theorem C5_amended (text : List Char) (cs ov : Int) (strategy : String)
    (hcs : 1 ≤ cs) (hov : 0 ≤ ov) (hcso : 2 * ov ≤ cs) :
    (chunk_text text cs ov strategy).isSome
    ∧ (∀ t' : List Char, ∀ cs' ov' : Int,
        (chunk_text t' cs' ov' "sentence").isSome
        ∧ (chunk_text t' cs' ov' "paragraph").isSome)
    ∧ (∀ cs' ov' : Int, ∀ s' : String, 0 ≤ cs' →
        chunk_text [] cs' ov' s' = some [[]]) := by
  have hsp : ∀ t' : List Char, ∀ cs' ov' : Int,
      (chunk_text t' cs' ov' "sentence").isSome
      ∧ (chunk_text t' cs' ov' "paragraph").isSome := by
    intro t' cs' ov'
    constructor <;> (unfold chunk_text; split <;> simp)
  refine ⟨?_, hsp, ?_⟩
  · unfold chunk_text
    split
    · rfl
    · split
      · rfl
      · split
        · rfl
        · unfold chunk_fixed chunk_fixed_raw
          have := chunkFixedLoop_isSome text cs ov hcs hov hcso
            (text.length + 1) 0 le_rfl (by push_cast; omega)
          cases hm : chunkFixedLoop text cs ov (text.length + 1) 0 with
          | none => rw [hm] at this; simp at this
          | some l => simp [hm]
  · intro cs' ov' s' hcs'
    unfold chunk_text
    have hcond : ((([] : List Char).length : Int)) ≤ cs' := by simp; omega
    rw [if_pos hcond]

theorem C5_amended_witness :
    ((1 : Int) ≤ 4 ∧ (0 : Int) ≤ 2 ∧ (2 * 2 : Int) ≤ 4)
    ∧ (chunk_text "aaaa bbbb".toList 4 2 "fixed").isSome := by
  refine ⟨by decide, ?_⟩
  exact (C5_amended "aaaa bbbb".toList 4 2 "fixed" (by decide) (by decide)
    (by decide)).1

/-- C4 amended: exact reconstruction fails for the chunks the three
strategies return (they are stripped, and sentence/paragraph separators are
rewritten) — see the counterexample; what does hold is that for the fixed
strategy, under the loop-termination conditions, the raw window contents
(before the per-chunk `strip`) concatenated in order with the first
`overlap` characters of each subsequent chunk removed recover the input
exactly; the returned chunks are exactly those raw windows stripped. -/
theorem C4_amended (text : List Char) (cs ov : Int)
    (hcs : 1 ≤ cs) (hov : 0 ≤ ov) (hcso : 2 * ov ≤ cs) :
    ∃ raws, chunk_fixed_raw text cs ov = some raws
      ∧ reconstruct ov.toNat raws = text
      ∧ chunk_fixed text cs ov = some (raws.map pyStrip) := by
  have hsome := chunkFixedLoop_isSome text cs ov hcs hov hcso
    (text.length + 1) 0 le_rfl (by push_cast; omega)
  cases hm : chunkFixedLoop text cs ov (text.length + 1) 0 with
  | none => rw [hm] at hsome; simp at hsome
  | some raws =>
    refine ⟨raws, hm, ?_, by simp [chunk_fixed, chunk_fixed_raw, hm]⟩
    unfold chunkFixedLoop at hm
    by_cases hb : (0 : Int) < (text.length : Int)
    · simp only [hb, if_true] at hm
      cases hx : chunkFixedLoop text cs ov (text.length) ((chunkFixedStep text cs 0).2 - ov) with
      | none => rw [hx] at hm; cases hm
      | some rest' =>
        rw [hx] at hm
        cases hm
        have hspec := chunkFixedStep_spec text cs ov 0 hcs hov hcso le_rfl
        have hrest := chunkFixedLoop_reconstruct text cs ov hcs hov hcso
          (text.length) ((chunkFixedStep text cs 0).2 - ov) rest' (by omega) hx
        have he : (chunkFixedStep text cs 0).2 - ov + ov
            = (chunkFixedStep text cs 0).2 := by omega
        rw [he] at hrest
        show (chunkFixedStep text cs 0).1
            ++ (rest'.map (List.drop ov.toNat)).flatten = text
        rw [hspec.1, hrest]
        have h0 : pySlice text 0 ((chunkFixedStep text cs 0).2)
            = text.take ((chunkFixedStep text cs 0).2).toNat := by
          unfold pySlice
          have hz : pyIdx text.length 0 = 0 := by unfold pyIdx; split <;> omega
          rw [hz, List.drop_zero]
          by_cases hc : ((chunkFixedStep text cs 0).2).toNat ≤ text.length
          · congr 1; unfold pyIdx; split <;> omega
          · have h2 : pyIdx text.length ((chunkFixedStep text cs 0).2)
                = text.length := by unfold pyIdx; split <;> omega
            rw [h2, List.take_length, List.take_of_length_le (by omega)]
        rw [h0]
        exact List.take_append_drop ((chunkFixedStep text cs 0).2).toNat text
    · simp only [hb, if_false] at hm
      cases hm
      have hlen0 : text.length = 0 := by omega
      simp [reconstruct, List.eq_nil_of_length_eq_zero hlen0]

theorem C4_amended_witness :
    ((1 : Int) ≤ 6 ∧ (0 : Int) ≤ 2 ∧ (2 * 2 : Int) ≤ 6)
    ∧ (∃ raws, chunk_fixed_raw "aaaa bbbb".toList 6 2 = some raws
      ∧ reconstruct 2 raws = "aaaa bbbb".toList
      ∧ chunk_fixed "aaaa bbbb".toList 6 2 = some (raws.map pyStrip)) := by
  refine ⟨by decide, ?_⟩
  have h := C4_amended "aaaa bbbb".toList 6 2 (by decide) (by decide) (by decide)
  simpa using h

/-! ## C9 — chunk size bound -/

theorem pyStrip_length_le (s : List Char) : (pyStrip s).length ≤ s.length := by
  unfold pyStrip
  simp only [List.length_reverse]
  calc ((s.dropWhile isPyWs).reverse.dropWhile isPyWs).length
      ≤ (s.dropWhile isPyWs).reverse.length := by
        induction (s.dropWhile isPyWs).reverse with
        | nil => simp
        | cons c tl ih =>
          by_cases h : isPyWs c <;> simp [List.dropWhile, h] <;> omega
    _ ≤ s.length := by
        simp only [List.length_reverse]
        induction s with
        | nil => simp
        | cons c tl ih =>
          by_cases h : isPyWs c <;> simp [List.dropWhile, h] <;> omega

/-- Every piece produced by the sentence splitter is made of input (and
accumulator) characters only. -/
theorem splitSenGo_piece_le :
    ∀ (cs : List Char) (pieces : List (List Char)) (curRev pendRev : List Char),
      ∀ p ∈ splitSenGo cs pieces curRev pendRev,
        p ∈ pieces ∨ p.length ≤ cs.length + curRev.length + pendRev.length := by
  intro cs
  induction cs with
  | nil =>
    intro pieces curRev pendRev p hp
    unfold splitSenGo at hp
    rcases List.mem_append.1 hp with h | h
    · exact Or.inl h
    · right
      simp only [List.mem_singleton] at h
      subst h
      simp only [List.length_reverse, List.length_append, List.length_nil]
      omega
  | cons c rest ih =>
    intro pieces curRev pendRev p hp
    unfold splitSenGo at hp
    by_cases h1 : pendRev.isEmpty
    · simp only [h1, if_true] at hp
      by_cases h2 : (isSenEnd curRev.head? && isPyWs c) = true
      · simp only [h2, if_true] at hp
        rcases ih pieces curRev [c] p hp with h | h
        · exact Or.inl h
        · right
          simp only [List.length_cons, List.length_nil] at h ⊢
          omega
      · simp only [h2, if_false] at hp
        rcases ih pieces (c :: curRev) pendRev p hp with h | h
        · exact Or.inl h
        · right
          simp only [List.length_cons] at h ⊢
          omega
    · simp only [h1, if_false] at hp
      by_cases h2 : isPyWs c = true
      · simp only [h2, if_true] at hp
        rcases ih pieces curRev (c :: pendRev) p hp with h | h
        · exact Or.inl h
        · right
          simp only [List.length_cons] at h ⊢
          omega
      · simp only [h2, if_false] at hp
        by_cases h3 : ('A' ≤ c && c ≤ 'Z') = true
        · simp only [h3, if_true] at hp
          rcases ih (pieces ++ [curRev.reverse]) [c] [] p hp with h | h
          · rcases List.mem_append.1 h with h' | h'
            · exact Or.inl h'
            · right
              simp only [List.mem_singleton] at h'
              subst h'
              simp only [List.length_reverse, List.length_cons]
              omega
          · right
            simp only [List.length_cons, List.length_nil] at h ⊢
            omega
        · simp only [h3, if_false] at hp
          rcases ih pieces (c :: (pendRev ++ curRev)) [] p hp with h | h
          · exact Or.inl h
          · right
            simp only [List.length_cons, List.length_append, List.length_nil] at h ⊢
            omega

theorem splitSentences_piece_le (y : List Char) :
    ∀ s ∈ splitSentences y, s.length ≤ y.length := by
  intro s hs
  rcases splitSenGo_piece_le y [] [] [] s hs with h | h
  · cases h
  · simpa using h

/-- Every piece produced by `split("\n\n")` is no longer than the input. -/
theorem pySplit2_piece_le (a b : Char) :
    ∀ (cs acc : List Char), ∀ p ∈ pySplit2 a b cs acc,
      p.length ≤ cs.length + acc.length := by
  intro cs acc
  induction cs, acc using pySplit2.induct a b with
  | case1 c d rest acc h ih =>
    intro p hp
    unfold pySplit2 at hp
    simp only [h, and_self, if_true] at hp
    rcases List.mem_cons.1 hp with h' | h'
    · subst h'
      simp only [List.length_reverse, List.length_cons]
      omega
    · have := ih p h'
      simp only [List.length_cons, List.length_nil] at this ⊢
      omega
  | case2 c d rest acc h ih =>
    intro p hp
    unfold pySplit2 at hp
    simp only [if_neg h] at hp
    have := ih p hp
    simp only [List.length_cons] at this ⊢
    omega
  | case3 c acc =>
    intro p hp
    unfold pySplit2 at hp
    simp only [List.mem_singleton] at hp
    subst hp
    simp only [List.length_reverse, List.length_cons]
    omega
  | case4 acc =>
    intro p hp
    unfold pySplit2 at hp
    simp only [List.mem_singleton] at hp
    subst hp
    simp only [List.length_reverse, List.length_nil]
    omega

theorem chunkSentenceStep_bound (text : List Char) (cs ov : Int)
    (hcs : 0 ≤ cs) (hov : 0 ≤ ov)
    (st : List (List Char) × List Char) (sen0 : List Char)
    (hsen : sen0 ∈ splitSentences text)
    (hch : ∀ c ∈ st.1, senB text cs ov c)
    (hcur : senB text cs ov st.2) :
    (∀ c ∈ (chunkSentenceStep cs ov st sen0).1, senB text cs ov c)
    ∧ senB text cs ov (chunkSentenceStep cs ov st sen0).2 := by
  obtain ⟨chunks, current⟩ := st
  have hstrip0 : ((pyStrip sen0).length : Int) ≤ sen0.length := by
    exact_mod_cast pyStrip_length_le sen0
  have hstripc : senB text cs ov (pyStrip current) := by
    have hlec : ((pyStrip current).length : Int) ≤ current.length := by
      exact_mod_cast pyStrip_length_le current
    rcases hcur with h | ⟨s, hs, h⟩
    · exact Or.inl (by simp at h ⊢; omega)
    · exact Or.inr ⟨s, hs, by simp at h ⊢; omega⟩
  unfold chunkSentenceStep
  dsimp only
  split_ifs with h1 h2 h3 h4 h5 h6
  all_goals dsimp only
  · -- empty stripped sentence: state unchanged
    exact ⟨hch, hcur⟩
  · -- close current, seed next chunk with the overlap tail
    refine ⟨?_, Or.inr ⟨sen0, hsen, ?_⟩⟩
    · intro c hc
      rcases List.mem_append.1 hc with h | h
      · exact hch c h
      · simp only [List.mem_singleton] at h; subst h; exact hstripc
    · have hseed : ((pySliceFrom current (-ov)).length : Int) ≤ ov := by
        unfold pySliceFrom pyIdx
        split <;> (simp only [List.length_drop]; omega)
      simp only [List.length_append, List.length_cons]
      push_cast
      omega
  · -- close current, next chunk is the sentence itself
    refine ⟨?_, Or.inr ⟨sen0, hsen, by omega⟩⟩
    intro c hc
    rcases List.mem_append.1 hc with h | h
    · exact hch c h
    · simp only [List.mem_singleton] at h; subst h; exact hstripc
  · -- hard cut, long remainder becomes the next chunk
    have hcut : ((pySliceTo (pyStrip sen0) cs).length : Int) ≤ cs := by
      unfold pySliceTo pyIdx
      split <;> (simp only [List.length_take]; omega)
    refine ⟨?_, Or.inr ⟨sen0, hsen, ?_⟩⟩
    · intro c hc
      rcases List.mem_append.1 hc with h | h
      · exact hch c h
      · simp only [List.mem_singleton] at h; subst h; exact Or.inl hcut
    · have : ((pySliceFrom (pyStrip sen0) (cs - ov)).length : Int)
          ≤ (pyStrip sen0).length := by
        unfold pySliceFrom
        simp only [List.length_drop]
        omega
      omega
  · -- hard cut, short remainder
    have hcut : ((pySliceTo (pyStrip sen0) cs).length : Int) ≤ cs := by
      unfold pySliceTo pyIdx
      split <;> (simp only [List.length_take]; omega)
    refine ⟨?_, Or.inr ⟨sen0, hsen, by omega⟩⟩
    intro c hc
    rcases List.mem_append.1 hc with h | h
    · exact hch c h
    · simp only [List.mem_singleton] at h; subst h; exact Or.inl hcut
  · -- sentence fits, current was empty
    refine ⟨hch, Or.inl ?_⟩
    have : current.length = 0 := by
      cases current with
      | nil => rfl
      | cons x tl => simp [List.isEmpty] at h6
    omega
  · -- sentence fits, appended to current
    refine ⟨hch, Or.inl ?_⟩
    simp only [List.length_append, List.length_cons]
    push_cast
    omega

theorem senFold_bound (text : List Char) (cs ov : Int)
    (hcs : 0 ≤ cs) (hov : 0 ≤ ov) :
    ∀ (L : List (List Char)) (st : List (List Char) × List Char),
      (∀ s ∈ L, s ∈ splitSentences text) →
      (∀ c ∈ st.1, senB text cs ov c) → senB text cs ov st.2 →
      (∀ c ∈ (L.foldl (chunkSentenceStep cs ov) st).1, senB text cs ov c)
      ∧ senB text cs ov (L.foldl (chunkSentenceStep cs ov) st).2 := by
  intro L
  induction L with
  | nil => intro st _ hch hcur; exact ⟨hch, hcur⟩
  | cons s tl ih =>
    intro st hsub hch hcur
    have hstep := chunkSentenceStep_bound text cs ov hcs hov st s
      (hsub s (List.mem_cons_self _ _)) hch hcur
    exact ih (chunkSentenceStep cs ov st s)
      (fun x hx => hsub x (List.mem_cons_of_mem _ hx)) hstep.1 hstep.2

/-- Every chunk of `_chunk_by_sentence` is within `chunk_size`, except seeds
around an unavoidably-long atomic sentence (then bounded by
`overlap + 1 + len(sentence)`). -/
theorem chunk_by_sentence_bound (text : List Char) (cs ov : Int)
    (hcs : 0 ≤ cs) (hov : 0 ≤ ov) :
    ∀ c ∈ chunk_by_sentence text cs ov, senB text cs ov c := by
  intro c hc
  unfold chunk_by_sentence at hc
  have hfold := senFold_bound text cs ov hcs hov (splitSentences text) ([], [])
    (fun s hs => hs) (by intro c hc; cases hc) (Or.inl (by simp; omega))
  set st := (splitSentences text).foldl (chunkSentenceStep cs ov) ([], []) with hst
  by_cases h2 : st.2.isEmpty
  · simp only [h2, if_true] at hc
    exact hfold.1 c hc
  · simp only [h2, if_false] at hc
    rcases List.mem_append.1 hc with h | h
    · exact hfold.1 c h
    · simp only [List.mem_singleton] at h
      subst h
      have hlec : ((pyStrip st.2).length : Int) ≤ st.2.length := by
        exact_mod_cast pyStrip_length_le st.2
      rcases hfold.2 with h | ⟨s, hs, h⟩
      · exact Or.inl (by omega)
      · exact Or.inr ⟨s, hs, by omega⟩

theorem chunkParagraphStep_bound (text : List Char) (cs ov : Int)
    (hcs : 0 ≤ cs) (hov : 0 ≤ ov)
    (st : List (List Char) × List Char) (para0 : List Char)
    (hpar : para0 ∈ pySplit '\n' '\n' text)
    (hch : ∀ c ∈ st.1, parB text cs ov c)
    (hcur : parB text cs ov st.2) :
    (∀ c ∈ (chunkParagraphStep cs ov st para0).1, parB text cs ov c)
    ∧ parB text cs ov (chunkParagraphStep cs ov st para0).2 := by
  obtain ⟨chunks, current⟩ := st
  have hstrip0 : ((pyStrip para0).length : Int) ≤ para0.length := by
    exact_mod_cast pyStrip_length_le para0
  have hstripc : parB text cs ov (pyStrip current) := by
    have hlec : ((pyStrip current).length : Int) ≤ current.length := by
      exact_mod_cast pyStrip_length_le current
    rcases hcur with h | ⟨p, hp, h⟩
    · exact Or.inl (by simp at h ⊢; omega)
    · exact Or.inr ⟨p, hp, by simp at h ⊢; omega⟩
  -- any chunk produced by sentence-splitting the paragraph is bounded
  have hsub : ∀ c ∈ chunk_by_sentence (pyStrip para0) cs ov, parB text cs ov c := by
    intro c hc
    rcases chunk_by_sentence_bound (pyStrip para0) cs ov hcs hov c hc with h | ⟨s, hs, h⟩
    · exact Or.inl h
    · refine Or.inr ⟨para0, hpar, ?_⟩
      have := splitSentences_piece_le (pyStrip para0) s hs
      omega
  unfold chunkParagraphStep
  dsimp only
  split_ifs with h1 h2 h3 h4 h6
  all_goals dsimp only
  · exact ⟨hch, hcur⟩
  · -- close current, seed next chunk with the overlap tail
    refine ⟨?_, Or.inr ⟨para0, hpar, ?_⟩⟩
    · intro c hc
      rcases List.mem_append.1 hc with h | h
      · exact hch c h
      · simp only [List.mem_singleton] at h; subst h; exact hstripc
    · have hseed : ((pySliceFrom current (-ov)).length : Int) ≤ ov := by
        unfold pySliceFrom pyIdx
        split <;> (simp only [List.length_drop]; omega)
      simp only [List.length_append, List.length_cons]
      push_cast
      omega
  · -- close current, next chunk is the paragraph
    refine ⟨?_, Or.inr ⟨para0, hpar, by omega⟩⟩
    intro c hc
    rcases List.mem_append.1 hc with h | h
    · exact hch c h
    · simp only [List.mem_singleton] at h; subst h; exact hstripc
  · -- paragraph too long: sentence-split it
    constructor
    · intro c hc
      rcases List.mem_append.1 hc with h | h
      · exact hch c h
      · exact hsub c (List.dropLast_subset _ h)
    · cases hg : (chunk_by_sentence (pyStrip para0) cs ov).getLast? with
      | none => exact Or.inr ⟨para0, hpar, by dsimp only; omega⟩
      | some l =>
        exact hsub l (List.mem_of_mem_getLast? hg)
  · -- paragraph fits, current was empty
    refine ⟨hch, Or.inl ?_⟩
    have : current.length = 0 := by
      cases current with
      | nil => rfl
      | cons x tl => simp [List.isEmpty] at h6
    omega
  · -- paragraph fits, appended to current
    refine ⟨hch, Or.inl ?_⟩
    simp only [List.length_append, List.length_cons]
    push_cast
    omega

theorem parFold_bound (text : List Char) (cs ov : Int)
    (hcs : 0 ≤ cs) (hov : 0 ≤ ov) :
    ∀ (L : List (List Char)) (st : List (List Char) × List Char),
      (∀ p ∈ L, p ∈ pySplit '\n' '\n' text) →
      (∀ c ∈ st.1, parB text cs ov c) → parB text cs ov st.2 →
      (∀ c ∈ (L.foldl (chunkParagraphStep cs ov) st).1, parB text cs ov c)
      ∧ parB text cs ov (L.foldl (chunkParagraphStep cs ov) st).2 := by
  intro L
  induction L with
  | nil => intro st _ hch hcur; exact ⟨hch, hcur⟩
  | cons p tl ih =>
    intro st hsub hch hcur
    have hstep := chunkParagraphStep_bound text cs ov hcs hov st p
      (hsub p (List.mem_cons_self _ _)) hch hcur
    exact ih (chunkParagraphStep cs ov st p)
      (fun x hx => hsub x (List.mem_cons_of_mem _ hx)) hstep.1 hstep.2

theorem chunk_by_paragraph_bound (text : List Char) (cs ov : Int)
    (hcs : 0 ≤ cs) (hov : 0 ≤ ov) :
    ∀ c ∈ chunk_by_paragraph text cs ov, parB text cs ov c := by
  intro c hc
  unfold chunk_by_paragraph at hc
  have hfold := parFold_bound text cs ov hcs hov (pySplit '\n' '\n' text) ([], [])
    (fun p hp => hp) (by intro c hc; cases hc) (Or.inl (by simp; omega))
  set st := (pySplit '\n' '\n' text).foldl (chunkParagraphStep cs ov) ([], []) with hst
  by_cases h2 : st.2.isEmpty
  · simp only [h2, if_true] at hc
    exact hfold.1 c hc
  · simp only [h2, if_false] at hc
    rcases List.mem_append.1 hc with h | h
    · exact hfold.1 c h
    · simp only [List.mem_singleton] at h
      subst h
      have hlec : ((pyStrip st.2).length : Int) ≤ st.2.length := by
        exact_mod_cast pyStrip_length_le st.2
      rcases hfold.2 with h | ⟨p, hp, h⟩
      · exact Or.inl (by omega)
      · exact Or.inr ⟨p, hp, by omega⟩

theorem pySliceTo_length_le (s : List Char) (b : Int) :
    (pySliceTo s b).length ≤ s.length := by
  unfold pySliceTo
  simp only [List.length_take]
  omega

/-- A fixed-strategy window never exceeds `chunk_size` characters. -/
theorem chunkFixedStep_length_le (text : List Char) (cs start : Int)
    (hcs : 0 ≤ cs) :
    (((chunkFixedStep text cs start).1).length : Int) ≤ cs := by
  have hslice : ((pySlice text start (start + cs)).length : Int) ≤ cs := by
    rw [pySlice_length]
    unfold pyIdx
    split <;> split <;> omega
  unfold chunkFixedStep
  dsimp only
  split_ifs with h1 h2
  · exact le_trans (Nat.cast_le.mpr (pySliceTo_length_le _ _)) hslice
  · exact hslice
  · exact hslice

theorem chunkFixedLoop_length_le (text : List Char) (cs ov : Int)
    (hcs : 0 ≤ cs) :
    ∀ (fuel : Nat) (start : Int) (raws : List (List Char)),
      chunkFixedLoop text cs ov fuel start = some raws →
      ∀ c ∈ raws, (c.length : Int) ≤ cs := by
  intro fuel
  induction fuel with
  | zero =>
    intro start raws h c hc
    unfold chunkFixedLoop at h
    by_cases hb : start < (text.length : Int)
    · simp [hb] at h
    · simp only [hb, if_false, Option.some.injEq] at h
      subst h
      cases hc
  | succ n ih =>
    intro start raws h c hc
    unfold chunkFixedLoop at h
    by_cases hb : start < (text.length : Int)
    · simp only [hb, if_true] at h
      cases hx : chunkFixedLoop text cs ov n ((chunkFixedStep text cs start).2 - ov) with
      | none => rw [hx] at h; cases h
      | some rest =>
        rw [hx] at h
        cases h
        rcases List.mem_cons.1 hc with h' | h'
        · subst h'
          exact chunkFixedStep_length_le text cs start hcs
        · exact ih _ rest hx c h'
    · simp only [hb, if_false, Option.some.injEq] at h
      subst h
      cases hc

/-- C9: size bound per strategy.  Fixed windows never exceed `chunk_size`
(boundary snapping and stripping only shrink them).  Sentence chunks are
within `chunk_size` unless they carry an unavoidably-long atomic sentence,
in which case the slack is the `overlap` seed plus the joining space.
Paragraph chunks likewise, with the two-character `"\n\n"` join (a chunk
from an over-long paragraph's sentence split is also within the paragraph
bound, since its sentences are pieces of the paragraph). -/
theorem C9_chunk_bound (text : List Char) (cs ov : Int)
    (hcs : 0 ≤ cs) (hov : 0 ≤ ov) :
    (∀ l, chunk_text text cs ov "fixed" = some l →
      ∀ c ∈ l, (c.length : Int) ≤ cs)
    ∧ (∀ l, chunk_text text cs ov "sentence" = some l →
      ∀ c ∈ l, (c.length : Int) ≤ cs
        ∨ ∃ s ∈ splitSentences text, (c.length : Int) ≤ ov + 1 + s.length)
    ∧ (∀ l, chunk_text text cs ov "paragraph" = some l →
      ∀ c ∈ l, (c.length : Int) ≤ cs
        ∨ ∃ p ∈ pySplit '\n' '\n' text, (c.length : Int) ≤ ov + 2 + p.length) := by
  refine ⟨?_, ?_, ?_⟩
  · intro l hl c hc
    unfold chunk_text at hl
    by_cases hshort : (text.length : Int) ≤ cs
    · rw [if_pos hshort] at hl
      cases hl
      simp only [List.mem_singleton] at hc
      subst hc
      omega
    · rw [if_neg hshort, if_neg (by decide), if_neg (by decide)] at hl
      unfold chunk_fixed chunk_fixed_raw at hl
      cases hm : chunkFixedLoop text cs ov (text.length + 1) 0 with
      | none => rw [hm] at hl; cases hl
      | some raws =>
        rw [hm] at hl
        simp only [Option.map_some', Option.some.injEq] at hl
        subst hl
        rcases List.mem_map.1 hc with ⟨raw, hraw, hc'⟩
        subst hc'
        have h1 := chunkFixedLoop_length_le text cs ov hcs _ _ raws hm raw hraw
        have h2 : (pyStrip raw).length ≤ raw.length := pyStrip_length_le raw
        omega
  · intro l hl c hc
    unfold chunk_text at hl
    by_cases hshort : (text.length : Int) ≤ cs
    · rw [if_pos hshort] at hl
      cases hl
      simp only [List.mem_singleton] at hc
      subst hc
      exact Or.inl hshort
    · rw [if_neg hshort, if_neg (by decide), if_pos rfl] at hl
      cases hl
      exact chunk_by_sentence_bound text cs ov hcs hov c hc
  · intro l hl c hc
    unfold chunk_text at hl
    by_cases hshort : (text.length : Int) ≤ cs
    · rw [if_pos hshort] at hl
      cases hl
      simp only [List.mem_singleton] at hc
      subst hc
      exact Or.inl hshort
    · rw [if_neg hshort, if_pos rfl] at hl
      cases hl
      exact chunk_by_paragraph_bound text cs ov hcs hov c hc

theorem C9_chunk_bound_witness :
    ((0 : Int) ≤ 8 ∧ (0 : Int) ≤ 2)
    ∧ (∀ l, chunk_text "Aa.\nBb. Cc.".toList 8 2 "fixed" = some l →
      ∀ c ∈ l, (c.length : Int) ≤ 8) := by
  refine ⟨by decide, ?_⟩
  exact (C9_chunk_bound "Aa.\nBb. Cc.".toList 8 2 (by decide) (by decide)).1

/-! ## C3 — malformed per-category output is non-fatal and atomic

`extract_from_document` is a total function of the oracles in this
embedding (the `try/except` swallows the step's exception), so "does not
raise" holds by construction; the theorem states the atomicity: a step whose
`_extract_step` raises contributes nothing, and the run equals the run with
that category removed, so every other category's contribution is kept. -/

/-- C3: if `_extract_step` raises for category `s` (malformed JSON after all
fallbacks, unknown step, or LLM failure), then (i) that step leaves the
accumulated results exactly as they were, (ii) the step loop over any
schedule containing `s` equals the loop with `s` removed, and (iii) the
whole `extract_from_document` result is the same as without `s`. -/
theorem C3_malformed_output_atomic (env : CotEnv) (s : String)
    (hfail : ∀ t prev, ∃ e, env.extractStep s t prev = Except.error e) :
    (∀ allChunks acc, benefitsStepOnce env allChunks acc s = acc)
    ∧ (∀ allChunks (pre post : List String) (acc : PyDict),
        (pre ++ s :: post).foldl (benefitsStepOnce env allChunks) acc
          = (pre ++ post).foldl (benefitsStepOnce env allChunks) acc)
    ∧ (∀ (uid did now : String) (pre post : List String),
        benefits_extract_from_document env uid did now (some (pre ++ s :: post))
          = benefits_extract_from_document env uid did now (some (pre ++ post))) := by
  have hone : ∀ allChunks acc, benefitsStepOnce env allChunks acc s = acc := by
    intro allChunks acc
    obtain ⟨e, he⟩ := hfail
      (stepTextFor (getRelevantChunkIndicesForStep env STEP_QUERIES s allChunks)
        allChunks) acc
    unfold benefitsStepOnce
    dsimp only
    rw [he]
  have hfold : ∀ allChunks (pre post : List String) (acc : PyDict),
      (pre ++ s :: post).foldl (benefitsStepOnce env allChunks) acc
        = (pre ++ post).foldl (benefitsStepOnce env allChunks) acc := by
    intro allChunks pre post acc
    rw [List.foldl_append, List.foldl_append, List.foldl_cons, hone]
  refine ⟨hone, hfold, ?_⟩
  intro uid did now pre post
  unfold benefits_extract_from_document
  simp only [Option.getD_some]
  rw [hfold]

theorem C3_malformed_output_atomic_witness :
    (∀ t prev, ∃ e,
      (CotEnv.mk (Except.ok [(0, "Plan Name: Acme PPO")])
        (fun _ => Except.error "down")
        (fun st _ _ =>
          if st = "step3_copays" then Except.error "malformed JSON"
          else Except.ok [("plan_name", PyVal.str "Acme PPO")])).extractStep
        "step3_copays" t prev = Except.error e)
    ∧ benefits_extract_from_document
        (CotEnv.mk (Except.ok [(0, "Plan Name: Acme PPO")])
          (fun _ => Except.error "down")
          (fun st _ _ =>
            if st = "step3_copays" then Except.error "malformed JSON"
            else Except.ok [("plan_name", PyVal.str "Acme PPO")]))
        "u1" "d1" "2026-01-01"
        (some (["step1_basic_info"] ++ "step3_copays" :: ["step2_deductibles"]))
      = benefits_extract_from_document
        (CotEnv.mk (Except.ok [(0, "Plan Name: Acme PPO")])
          (fun _ => Except.error "down")
          (fun st _ _ =>
            if st = "step3_copays" then Except.error "malformed JSON"
            else Except.ok [("plan_name", PyVal.str "Acme PPO")]))
        "u1" "d1" "2026-01-01"
        (some (["step1_basic_info"] ++ ["step2_deductibles"])) :=
  ⟨fun t prev => ⟨"malformed JSON", by simp⟩,
   (C3_malformed_output_atomic _ "step3_copays"
      (fun t prev => ⟨"malformed JSON", by simp⟩)).2.2
     "u1" "d1" "2026-01-01" ["step1_basic_info"] ["step2_deductibles"]⟩

/-! ## C6 — relevance-selector degradation -/

/-- C6: (i) a failing seed query is skipped and the remaining seeds still
contribute; (ii) when every seed query fails the selector returns the empty
set; (iii) an empty selection makes the step text the concatenation of all
cached chunks in index order; (iv) hence with a totally failing vector
store every category's step runs on the full cached-chunk text — the
pipeline (a total function of the oracles here) completes on all-chunks
fallback instead of aborting, in both CoT agents. -/
theorem C6_relevance_degradation (env : CotEnv)
    (hall : ∀ q, ∃ e, env.selQuery q = Except.error e) :
    (∀ (allChunks : List (Nat × String)) (q : String) (pre post : List String),
      (∃ e, env.selQuery q = Except.error e) →
      selectorGo env allChunks (pre ++ q :: post)
        = selectorGo env allChunks (pre ++ post))
    ∧ (∀ (sq : String → List String) (stepName : String)
        (allChunks : List (Nat × String)),
      getRelevantChunkIndicesForStep env sq stepName allChunks = [])
    ∧ (∀ allChunks : List (Nat × String), stepTextFor [] allChunks
        = joinNN ((sortByKey allChunks).map (fun p => p.2)))
    ∧ (∀ (allChunks : List (Nat × String)) (acc : PyDict) (stepName : String),
      benefitsStepOnce env allChunks acc stepName
        = (match env.extractStep stepName
            (joinNN ((sortByKey allChunks).map (fun p => p.2))) acc with
          | Except.error _ => acc
          | Except.ok r => cotMergeStepB acc r)
      ∧ eobStepOnce env allChunks acc stepName
        = (match env.extractStep stepName
            (joinNN ((sortByKey allChunks).map (fun p => p.2))) acc with
          | Except.error _ => acc
          | Except.ok r => cotMergeStepE acc r)) := by
  have hskip : ∀ (allChunks : List (Nat × String)) (q : String)
      (pre post : List String),
      (∃ e, env.selQuery q = Except.error e) →
      selectorGo env allChunks (pre ++ q :: post)
        = selectorGo env allChunks (pre ++ post) := by
    intro allChunks q pre post ⟨e, he⟩
    unfold selectorGo
    rw [List.foldl_append, List.foldl_append, List.foldl_cons]
    simp only [he]
  have hstays : ∀ (allChunks : List (Nat × String)) (L : List String)
      (A : List Nat),
      L.foldl (fun idxs q =>
        match env.selQuery q with
        | Except.error _ => idxs
        | Except.ok ms =>
          ms.foldl (fun a i =>
            if natContains allChunks i && !a.contains i then a ++ [i] else a)
            idxs) A = A := by
    intro allChunks L
    induction L with
    | nil => intro A; rfl
    | cons q tl ih =>
      intro A
      rw [List.foldl_cons]
      obtain ⟨e, he⟩ := hall q
      simp only [he]
      exact ih A
  have hempty : ∀ (sq : String → List String) (stepName : String)
      (allChunks : List (Nat × String)),
      getRelevantChunkIndicesForStep env sq stepName allChunks = [] := by
    intro sq stepName allChunks
    unfold getRelevantChunkIndicesForStep selectorGo
    exact hstays allChunks _ []
  have htext : ∀ allChunks : List (Nat × String), stepTextFor [] allChunks
      = joinNN ((sortByKey allChunks).map (fun p => p.2)) := by
    intro allChunks
    rfl
  refine ⟨hskip, hempty, htext, ?_⟩
  intro allChunks acc stepName
  constructor
  · unfold benefitsStepOnce
    rw [hempty]
    dsimp only
    rw [htext]
  · unfold eobStepOnce
    rw [hempty]
    dsimp only
    rw [htext]

theorem C6_relevance_degradation_witness :
    (∀ q, ∃ e, (CotEnv.mk (Except.ok [(0, "chunk zero"), (1, "chunk one")])
        (fun _ => Except.error "store down")
        (fun _ _ _ => Except.ok [])).selQuery q = Except.error e)
    ∧ getRelevantChunkIndicesForStep
        (CotEnv.mk (Except.ok [(0, "chunk zero"), (1, "chunk one")])
          (fun _ => Except.error "store down")
          (fun _ _ _ => Except.ok []))
        STEP_QUERIES "step2_deductibles" [(0, "chunk zero"), (1, "chunk one")]
      = [] :=
  ⟨fun q => ⟨"store down", rfl⟩,
   (C6_relevance_degradation _ (fun q => ⟨"store down", rfl⟩)).2.1
     STEP_QUERIES "step2_deductibles" [(0, "chunk zero"), (1, "chunk one")]⟩

/-! ## C2 — required fields after finalization -/

theorem pyGet_truthy_false_of_items (r : PyDict) (k : String)
    (h : ∀ kv ∈ r, kv.1 = k → kv.2.truthy = false) :
    (pyGet r k).truthy = false := by
  induction r with
  | nil => rfl
  | cons p tl ih =>
    rw [pyGet_cons]
    by_cases hp : p.1 = k
    · rw [if_pos hp]; exact h p (List.mem_cons_self _ _) hp
    · rw [if_neg hp]; exact ih (fun kv hkv => h kv (List.mem_cons_of_mem _ hkv))

theorem cotMergeItemB_get_ne (acc : PyDict) (kv : String × PyVal) (k : String)
    (h : kv.1 ≠ k) : pyGet (cotMergeItemB acc kv) k = pyGet acc k := by
  unfold cotMergeItemB
  dsimp only
  split_ifs <;> first
    | rfl
    | exact pyGet_set_ne _ _ _ _ h

theorem cotMergeItemE_get_ne (acc : PyDict) (kv : String × PyVal) (k : String)
    (h : kv.1 ≠ k) : pyGet (cotMergeItemE acc kv) k = pyGet acc k := by
  unfold cotMergeItemE
  dsimp only
  split_ifs <;> first
    | rfl
    | exact pyGet_set_ne _ _ _ _ h

theorem cotMergeItemB_falsy (acc : PyDict) (kv : String × PyVal) (k : String)
    (hk : kv.1 = k) (hv : kv.2.truthy = false)
    (hacc : (pyGet acc k).truthy = false) :
    (pyGet (cotMergeItemB acc kv) k).truthy = false := by
  unfold cotMergeItemB
  dsimp only
  rw [if_pos (by rw [hk, hacc]; simp), hk, pyGet_set_eq]
  exact hv

theorem cotMergeItemE_falsy (acc : PyDict) (kv : String × PyVal) (k : String)
    (hk : kv.1 = k) (hv : kv.2.truthy = false)
    (hacc : (pyGet acc k).truthy = false) :
    (pyGet (cotMergeItemE acc kv) k).truthy = false := by
  unfold cotMergeItemE
  dsimp only
  rw [if_pos (by rw [hk, hacc]; simp), hk, pyGet_set_eq]
  exact hv

theorem cotMergeStepB_falsy (r : PyDict) (k : String) :
    (∀ kv ∈ r, kv.1 = k → kv.2.truthy = false) →
    ∀ acc : PyDict, (pyGet acc k).truthy = false →
    (pyGet (cotMergeStepB acc r) k).truthy = false := by
  unfold cotMergeStepB
  induction r with
  | nil => exact fun _ _ hacc => hacc
  | cons kv tl ih =>
    intro hr acc hacc
    rw [List.foldl_cons]
    refine ih (fun x hx => hr x (List.mem_cons_of_mem _ hx)) _ ?_
    by_cases hk : kv.1 = k
    · exact cotMergeItemB_falsy acc kv k hk (hr kv (List.mem_cons_self _ _) hk) hacc
    · rw [cotMergeItemB_get_ne acc kv k hk]; exact hacc

theorem cotMergeStepE_falsy (r : PyDict) (k : String) :
    (∀ kv ∈ r, kv.1 = k → kv.2.truthy = false) →
    ∀ acc : PyDict, (pyGet acc k).truthy = false →
    (pyGet (cotMergeStepE acc r) k).truthy = false := by
  unfold cotMergeStepE
  induction r with
  | nil => exact fun _ _ hacc => hacc
  | cons kv tl ih =>
    intro hr acc hacc
    rw [List.foldl_cons]
    refine ih (fun x hx => hr x (List.mem_cons_of_mem _ hx)) _ ?_
    by_cases hk : kv.1 = k
    · exact cotMergeItemE_falsy acc kv k hk (hr kv (List.mem_cons_self _ _) hk) hacc
    · rw [cotMergeItemE_get_ne acc kv k hk]; exact hacc

theorem normListField_get_ne (f : PyVal → PyVal) (key : String) (d : PyDict)
    (k : String) (h : key ≠ k) :
    pyGet (normListField f key d) k = pyGet d k := by
  unfold normListField
  split_ifs
  · exact pyGet_set_ne _ _ _ _ h
  · rfl

theorem normalize_benefits_data_get_other (d : PyDict) (k : String)
    (h1 : "deductibles" ≠ k) (h2 : "copays" ≠ k) (h3 : "coinsurance" ≠ k)
    (h4 : "coverage_limits" ≠ k) (h5 : "services" ≠ k) :
    pyGet (normalize_benefits_data d) k = pyGet d k := by
  unfold normalize_benefits_data
  dsimp only
  rw [normListField_get_ne _ _ _ _ h5, normListField_get_ne _ _ _ _ h4,
    normListField_get_ne _ _ _ _ h3, normListField_get_ne _ _ _ _ h2,
    normListField_get_ne _ _ _ _ h1]

theorem normAmountFold_get_ne (fields : List String) (d : PyDict) (k : String)
    (h : ∀ f ∈ fields, f ≠ k) :
    pyGet (fields.foldl normAmountFieldIn d) k = pyGet d k := by
  induction fields generalizing d with
  | nil => rfl
  | cons f tl ih =>
    rw [List.foldl_cons, ih _ (fun x hx => h x (List.mem_cons_of_mem _ hx))]
    unfold normAmountFieldIn
    split_ifs
    · exact pyGet_set_ne _ _ _ _ (h f (List.mem_cons_self _ _))
    · rfl

theorem normalize_eob_data_get_other (d : PyDict) (k : String)
    (hm : ∀ f ∈ eobAmountFields, f ≠ k)
    (h1 : "services" ≠ k) (h2 : "coverage_breakdown" ≠ k)
    (h3 : "claim_date" ≠ k) :
    pyGet (normalize_eob_data d) k = pyGet d k := by
  unfold normalize_eob_data
  dsimp only
  split_ifs <;>
    simp only [pyGet_set_ne _ _ _ _ h1, pyGet_set_ne _ _ _ _ h2,
      pyGet_set_ne _ _ _ _ h3, normAmountFold_get_ne _ _ _ hm]

theorem calculate_alerts_get_other (d : PyDict) (k : String)
    (h1 : "alerts" ≠ k) (h2 : "discrepancies" ≠ k) :
    pyGet (calculate_alerts_and_discrepancies d) k = pyGet d k := by
  unfold calculate_alerts_and_discrepancies
  dsimp only
  rw [pyGet_set_ne _ _ _ _ h2, pyGet_set_ne _ _ _ _ h1]

theorem isNone_false_of_truthy (v : PyVal) (h : v.truthy = true) :
    isNone v = false := by
  cases v
  case none => exact absurd h (by decide)
  all_goals rfl

theorem benefitsFold_falsy (env : CotEnv) (AC : List (Nat × String)) (k : String)
    (henv : ∀ s t prev r, env.extractStep s t prev = Except.ok r →
      ∀ kv ∈ r, kv.1 = k → kv.2.truthy = false) :
    ∀ (L : List String) (acc : PyDict), (pyGet acc k).truthy = false →
      (pyGet (L.foldl (benefitsStepOnce env AC) acc) k).truthy = false := by
  intro L
  induction L with
  | nil => exact fun _ h => h
  | cons st tl ih =>
    intro acc h
    rw [List.foldl_cons]
    refine ih _ ?_
    unfold benefitsStepOnce
    dsimp only
    cases hx : env.extractStep st
        (stepTextFor (getRelevantChunkIndicesForStep env STEP_QUERIES st AC) AC)
        acc with
    | error e => exact h
    | ok r =>
      exact cotMergeStepB_falsy r k
        (fun kv hkv hk1 => henv _ _ _ r hx kv hkv hk1) acc h

theorem eobFold_falsy (env : CotEnv) (AC : List (Nat × String)) (k : String)
    (henv : ∀ s t prev r, env.extractStep s t prev = Except.ok r →
      ∀ kv ∈ r, kv.1 = k → kv.2.truthy = false) :
    ∀ (L : List String) (acc : PyDict), (pyGet acc k).truthy = false →
      (pyGet (L.foldl (eobStepOnce env AC) acc) k).truthy = false := by
  intro L
  induction L with
  | nil => exact fun _ h => h
  | cons st tl ih =>
    intro acc h
    rw [List.foldl_cons]
    refine ih _ ?_
    unfold eobStepOnce
    dsimp only
    cases hx : env.extractStep st
        (stepTextFor (getRelevantChunkIndicesForStep env EOB_STEP_QUERIES st AC) AC)
        acc with
    | error e => exact h
    | ok r =>
      exact cotMergeStepE_falsy r k
        (fun kv hkv hk1 => henv _ _ _ r hx kv hkv hk1) acc h

theorem nonnull_after_default (x : PyDict) (k : String) (v : PyVal)
    (hv : isNone v = false) :
    isNone (pyGet (if (pyGet x k).truthy then x else pySet x k v) k) = false := by
  split_ifs with h
  · exact isNone_false_of_truthy _ h
  · rw [pyGet_set_eq]; exact hv

theorem nonnull_through_default (x : PyDict) (k k' : String) (v : PyVal)
    (hne : k' ≠ k) (h : isNone (pyGet x k) = false) :
    isNone (pyGet (if (pyGet x k').truthy then x else pySet x k' v) k) = false := by
  split_ifs
  · exact h
  · rw [pyGet_set_ne _ _ _ _ hne]; exact h

/-- C2: after finalization the primary-key-like fields are never missing.
If every step extraction that succeeds yields a falsy `plan_name`, the
benefits CoT agent's finalized record has `plan_name` exactly
`"Unknown Plan - <document_id>"`; under the analogous hypothesis for
`member_name`/`claim_number`/`provider_name` the EOB CoT agent substitutes
its deterministic defaults (`"Unknown Member"`, the document id,
`"Weill Cornell Medicine"`); and unconditionally — for every oracle —
neither agent ever returns a record in which any of these fields is null. -/
theorem C2_finalization_required_fields
    (env : CotEnv) (user_id document_id now : String)
    (steps : Option (List String))
    (henv : ∀ s t prev r, env.extractStep s t prev = Except.ok r →
      ∀ kv ∈ r, kv.1 = "plan_name" → kv.2.truthy = false)
    (env2 : CotEnv) (user_id2 document_id2 now2 : String)
    (steps2 : Option (List String))
    (henv2 : ∀ s t prev r, env2.extractStep s t prev = Except.ok r →
      ∀ kv ∈ r,
        kv.1 = "member_name" ∨ kv.1 = "claim_number" ∨ kv.1 = "provider_name" →
        kv.2.truthy = false) :
    pyGet (benefits_extract_from_document env user_id document_id now steps)
        "plan_name" = PyVal.str ("Unknown Plan - " ++ document_id)
    ∧ pyGet (eob_extract_from_document env2 user_id2 document_id2 now2 steps2)
        "member_name" = PyVal.str "Unknown Member"
    ∧ pyGet (eob_extract_from_document env2 user_id2 document_id2 now2 steps2)
        "claim_number" = PyVal.str document_id2
    ∧ pyGet (eob_extract_from_document env2 user_id2 document_id2 now2 steps2)
        "provider_name" = PyVal.str "Weill Cornell Medicine"
    ∧ (∀ (e : CotEnv) (u d n : String) (st : Option (List String)),
        isNone (pyGet (benefits_extract_from_document e u d n st) "plan_name")
          = false)
    ∧ (∀ (e : CotEnv) (u d n : String) (st : Option (List String)),
        isNone (pyGet (eob_extract_from_document e u d n st) "member_name")
            = false
        ∧ isNone (pyGet (eob_extract_from_document e u d n st) "claim_number")
            = false
        ∧ isNone (pyGet (eob_extract_from_document e u d n st) "provider_name")
            = false) := by
  have hB : pyGet (benefits_extract_from_document env user_id document_id now
      steps) "plan_name" = PyVal.str ("Unknown Plan - " ++ document_id) := by
    unfold benefits_extract_from_document
    dsimp only
    have hf := benefitsFold_falsy env (getAllDocumentChunksDict env) "plan_name"
      henv (steps.getD STEP_NAMES) [] rfl
    rw [normalize_benefits_data_get_other _ _ (by decide) (by decide) (by decide)
        (by decide) (by decide),
      pyGet_set_ne _ _ _ _ (by decide), pyGet_set_ne _ _ _ _ (by decide),
      pyGet_set_ne _ _ _ _ (by decide)]
    rw [if_neg (by rw [hf]; exact Bool.false_ne_true)]
    cases hx : env.extractStep "step1_basic_info"
        (joinNN ((sortByKey (getAllDocumentChunksDict env)).map (fun p => p.2)))
        [] with
    | error e => rw [pyGet_set_eq]
    | ok r =>
      have hr : (pyGet r "plan_name").truthy = false :=
        pyGet_truthy_false_of_items r _
          (fun kv hkv hk => henv _ _ _ r hx kv hkv hk)
      dsimp only
      rw [if_neg (by rw [hr]; exact Bool.false_ne_true), pyGet_set_eq]
  have hE : pyGet (eob_extract_from_document env2 user_id2 document_id2 now2
        steps2) "member_name" = PyVal.str "Unknown Member"
      ∧ pyGet (eob_extract_from_document env2 user_id2 document_id2 now2
        steps2) "claim_number" = PyVal.str document_id2
      ∧ pyGet (eob_extract_from_document env2 user_id2 document_id2 now2
        steps2) "provider_name" = PyVal.str "Weill Cornell Medicine" := by
    unfold eob_extract_from_document
    dsimp only
    have hf1 := eobFold_falsy env2 (getAllDocumentChunksDict env2) "member_name"
      (fun s t p r hr kv hkv hk => henv2 s t p r hr kv hkv (Or.inl hk))
      (steps2.getD EOB_STEP_NAMES) [] rfl
    have hf2 := eobFold_falsy env2 (getAllDocumentChunksDict env2) "claim_number"
      (fun s t p r hr kv hkv hk => henv2 s t p r hr kv hkv (Or.inr (Or.inl hk)))
      (steps2.getD EOB_STEP_NAMES) [] rfl
    have hf3 := eobFold_falsy env2 (getAllDocumentChunksDict env2)
      "provider_name"
      (fun s t p r hr kv hkv hk => henv2 s t p r hr kv hkv (Or.inr (Or.inr hk)))
      (steps2.getD EOB_STEP_NAMES) [] rfl
    set L := List.foldl (eobStepOnce env2 (getAllDocumentChunksDict env2)) []
      (steps2.getD EOB_STEP_NAMES) with hL
    have n1 : ¬((pyGet L "member_name").truthy = true) := by
      rw [hf1]; exact Bool.false_ne_true
    rw [if_neg n1]
    have e2 : pyGet (pySet L "member_name" (PyVal.str "Unknown Member"))
        "claim_number" = pyGet L "claim_number" :=
      pyGet_set_ne _ _ _ _ (by decide)
    have n2 : ¬((pyGet (pySet L "member_name" (PyVal.str "Unknown Member"))
        "claim_number").truthy = true) := by
      rw [e2, hf2]; exact Bool.false_ne_true
    rw [if_neg n2]
    have e3 : pyGet (pySet (pySet L "member_name" (PyVal.str "Unknown Member"))
          "claim_number" (PyVal.str document_id2)) "provider_name"
        = pyGet L "provider_name" := by
      rw [pyGet_set_ne _ _ _ _ (by decide), pyGet_set_ne _ _ _ _ (by decide)]
    have n3 : ¬((pyGet (pySet (pySet L "member_name"
          (PyVal.str "Unknown Member")) "claim_number"
          (PyVal.str document_id2)) "provider_name").truthy = true) := by
      rw [e3, hf3]; exact Bool.false_ne_true
    rw [if_neg n3]
    refine ⟨?_, ?_, ?_⟩
    · rw [calculate_alerts_get_other _ _ (by decide) (by decide),
        normalize_eob_data_get_other _ _ (by decide) (by decide) (by decide)
          (by decide),
        pyGet_set_ne _ _ _ _ (by decide), pyGet_set_ne _ _ _ _ (by decide),
        pyGet_set_ne _ _ _ _ (by decide), pyGet_set_ne _ _ _ _ (by decide),
        pyGet_set_ne _ _ _ _ (by decide), pyGet_set_eq]
    · rw [calculate_alerts_get_other _ _ (by decide) (by decide),
        normalize_eob_data_get_other _ _ (by decide) (by decide) (by decide)
          (by decide),
        pyGet_set_ne _ _ _ _ (by decide), pyGet_set_ne _ _ _ _ (by decide),
        pyGet_set_ne _ _ _ _ (by decide), pyGet_set_ne _ _ _ _ (by decide),
        pyGet_set_eq]
    · rw [calculate_alerts_get_other _ _ (by decide) (by decide),
        normalize_eob_data_get_other _ _ (by decide) (by decide) (by decide)
          (by decide),
        pyGet_set_ne _ _ _ _ (by decide), pyGet_set_ne _ _ _ _ (by decide),
        pyGet_set_ne _ _ _ _ (by decide), pyGet_set_eq]
  have hNB : ∀ (e : CotEnv) (u d n : String) (st : Option (List String)),
      isNone (pyGet (benefits_extract_from_document e u d n st) "plan_name")
        = false := by
    intro e u d n st
    unfold benefits_extract_from_document
    dsimp only
    rw [normalize_benefits_data_get_other _ _ (by decide) (by decide) (by decide)
        (by decide) (by decide),
      pyGet_set_ne _ _ _ _ (by decide), pyGet_set_ne _ _ _ _ (by decide),
      pyGet_set_ne _ _ _ _ (by decide)]
    split_ifs with h1
    · exact isNone_false_of_truthy _ h1
    · split
      · split_ifs with h2
        · rw [pyGet_set_eq]; exact isNone_false_of_truthy _ h2
        · rw [pyGet_set_eq]; rfl
      · rw [pyGet_set_eq]; rfl
  have hNE : ∀ (e : CotEnv) (u d n : String) (st : Option (List String)),
      isNone (pyGet (eob_extract_from_document e u d n st) "member_name")
          = false
      ∧ isNone (pyGet (eob_extract_from_document e u d n st) "claim_number")
          = false
      ∧ isNone (pyGet (eob_extract_from_document e u d n st) "provider_name")
          = false := by
    intro e u d n st
    unfold eob_extract_from_document
    dsimp only
    refine ⟨?_, ?_, ?_⟩
    · rw [calculate_alerts_get_other _ _ (by decide) (by decide),
        normalize_eob_data_get_other _ _ (by decide) (by decide) (by decide)
          (by decide),
        pyGet_set_ne _ _ _ _ (by decide), pyGet_set_ne _ _ _ _ (by decide),
        pyGet_set_ne _ _ _ _ (by decide)]
      exact nonnull_through_default _ _ "provider_name" _ (by decide)
        (nonnull_through_default _ _ "claim_number" _ (by decide)
          (nonnull_after_default _ "member_name" _ rfl))
    · rw [calculate_alerts_get_other _ _ (by decide) (by decide),
        normalize_eob_data_get_other _ _ (by decide) (by decide) (by decide)
          (by decide),
        pyGet_set_ne _ _ _ _ (by decide), pyGet_set_ne _ _ _ _ (by decide),
        pyGet_set_ne _ _ _ _ (by decide)]
      exact nonnull_through_default _ _ "provider_name" _ (by decide)
        (nonnull_after_default _ "claim_number" _ rfl)
    · rw [calculate_alerts_get_other _ _ (by decide) (by decide),
        normalize_eob_data_get_other _ _ (by decide) (by decide) (by decide)
          (by decide),
        pyGet_set_ne _ _ _ _ (by decide), pyGet_set_ne _ _ _ _ (by decide),
        pyGet_set_ne _ _ _ _ (by decide)]
      exact nonnull_after_default _ "provider_name" _ rfl
  exact ⟨hB, hE.1, hE.2.1, hE.2.2, hNB, hNE⟩

/-! ## C7 — first-seen-wins keyed merge -/

theorem pvContains_append (m1 m2 : PvMap) (k : PyVal) :
    pvContains (m1 ++ m2) k = (pvContains m1 k || pvContains m2 k) :=
  List.any_append

theorem pvSet_append_of_not_contains (m : PvMap) (k : PyVal) (v : PyVal)
    (h : pvContains m k = false) : pvSet m k v = m ++ [(k, v)] := by
  induction m with
  | nil => rfl
  | cons p tl ih =>
    unfold pvContains at h
    simp only [List.any_cons, Bool.or_eq_false_iff] at h
    unfold pvSet
    rw [if_neg (by rw [h.1]; exact Bool.false_ne_true), ih h.2]
    rfl

theorem buildKeyMap_fold_spec (keyName : String) (withFilter : Bool) :
    ∀ (l : List PyVal) (m : PvMap),
      (∀ r ∈ l, (recKey keyName r).truthy = true) →
      List.Pairwise
        (fun a b => pyEq (recKey keyName a) (recKey keyName b) = false) l →
      (∀ r ∈ l, pvContains m (recKey keyName r) = false) →
      l.foldl
        (fun m r =>
          if withFilter && !(recKey keyName r).truthy then m
          else pvSet m (recKey keyName r) r) m
      = m ++ l.map (fun r => (recKey keyName r, r)) := by
  intro l
  induction l with
  | nil => intro m _ _ _; exact (List.append_nil m).symm
  | cons r tl ih =>
    intro m ht hp hm
    rw [List.foldl_cons]
    have htr := ht r (List.mem_cons_self _ _)
    rw [if_neg (by simp [htr]),
      pvSet_append_of_not_contains _ _ _ (hm r (List.mem_cons_self _ _)),
      ih (m ++ [(recKey keyName r, r)])
        (fun x hx => ht x (List.mem_cons_of_mem _ hx))
        (List.pairwise_cons.mp hp).2
        (fun x hx => by
          rw [pvContains_append, hm x (List.mem_cons_of_mem _ hx)]
          have hsing : pvContains [(recKey keyName r, r)] (recKey keyName x)
              = false := by
            unfold pvContains
            simp [(List.pairwise_cons.mp hp).1 x hx]
          rw [hsing]
          rfl),
      List.append_assoc]
    rfl

theorem insertNewKeys_spec (keyName : String) :
    ∀ (new : List PyVal) (m : PvMap), ∃ extra : PvMap,
      insertNewKeys keyName m new = m ++ extra
      ∧ (∀ p ∈ extra, p.2 ∈ new ∧ p.1 = recKey keyName p.2
          ∧ p.1.truthy = true ∧ pvContains m p.1 = false)
      ∧ List.Pairwise (fun a b => pyEq a.1 b.1 = false) extra := by
  intro new
  induction new with
  | nil =>
    intro m
    exact ⟨[], by simp [insertNewKeys], by simp, by simp⟩
  | cons r tl ih =>
    intro m
    by_cases hc : ((recKey keyName r).truthy
        && !(pvContains m (recKey keyName r))) = true
    · have hparts : (recKey keyName r).truthy = true
          ∧ pvContains m (recKey keyName r) = false := by
        have h2 := hc
        rw [Bool.and_eq_true] at h2
        exact ⟨h2.1, by simpa using h2.2⟩
      obtain ⟨extra, heq, hprop, hpw⟩ := ih (m ++ [(recKey keyName r, r)])
      have hhead : ∀ p ∈ extra, pyEq (recKey keyName r) p.1 = false := by
        intro p hp
        have hcont := (hprop p hp).2.2.2
        rw [pvContains_append, Bool.or_eq_false_iff] at hcont
        have := hcont.2
        unfold pvContains at this
        simpa using this
      refine ⟨(recKey keyName r, r) :: extra, ?_, ?_, ?_⟩
      · have hstep : insertNewKeys keyName m (r :: tl)
            = insertNewKeys keyName (m ++ [(recKey keyName r, r)]) tl := by
          unfold insertNewKeys
          rw [List.foldl_cons]
          dsimp only
          rw [if_pos hc, pvSet_append_of_not_contains _ _ _ hparts.2]
        rw [hstep, heq, List.append_assoc]
        rfl
      · intro p hp
        rcases List.mem_cons.mp hp with hp1 | hp2
        · subst hp1
          exact ⟨List.mem_cons_self _ _, rfl, hparts.1, hparts.2⟩
        · obtain ⟨hmem, hfst, htr, hcont⟩ := hprop p hp2
          refine ⟨List.mem_cons_of_mem _ hmem, hfst, htr, ?_⟩
          rw [pvContains_append, Bool.or_eq_false_iff] at hcont
          exact hcont.1
      · exact List.pairwise_cons.mpr ⟨hhead, hpw⟩
    · obtain ⟨extra, heq, hprop, hpw⟩ := ih m
      refine ⟨extra, ?_, ?_, hpw⟩
      · have hstep : insertNewKeys keyName m (r :: tl)
            = insertNewKeys keyName m tl := by
          unfold insertNewKeys
          rw [List.foldl_cons]
          dsimp only
          rw [if_neg hc]
        rw [hstep, heq]
      · intro p hp
        obtain ⟨hmem, hfst, htr, hcont⟩ := hprop p hp
        exact ⟨List.mem_cons_of_mem _ hmem, hfst, htr, hcont⟩

/-- The keyed merge on a well-formed accumulated list: the accumulated
records survive unchanged as a prefix, and the appended records come from
the partial list, carry truthy keys, and keep the whole list well-formed. -/
theorem mergeByKey_spec (keyName : String) (withFilter : Bool)
    (existing newRecs : List PyVal)
    (hwf : svcWellFormed keyName existing) :
    ∃ extra : List PyVal,
      mergeByKey keyName withFilter existing newRecs = existing ++ extra
      ∧ (∀ r ∈ extra, r ∈ newRecs
          ∧ (recKey keyName r).truthy = true
          ∧ ∀ r' ∈ existing,
              pyEq (recKey keyName r') (recKey keyName r) = false)
      ∧ svcWellFormed keyName (existing ++ extra) := by
  obtain ⟨htruthy, hdist⟩ := hwf
  have hbm : buildKeyMap keyName withFilter existing
      = existing.map (fun r => (recKey keyName r, r)) := by
    unfold buildKeyMap
    have := buildKeyMap_fold_spec keyName withFilter existing [] htruthy hdist
      (fun r _ => rfl)
    rw [this, List.nil_append]
  obtain ⟨extraP, heq, hprop, hpw⟩ :=
    insertNewKeys_spec keyName newRecs (buildKeyMap keyName withFilter existing)
  have hmain : ∀ r ∈ extraP.map (fun p => p.2), r ∈ newRecs
      ∧ (recKey keyName r).truthy = true
      ∧ ∀ r' ∈ existing,
          pyEq (recKey keyName r') (recKey keyName r) = false := by
    intro r hr
    obtain ⟨p, hp, hpr⟩ := List.mem_map.mp hr
    obtain ⟨hmem, hfst, htr, hcont⟩ := hprop p hp
    subst hpr
    refine ⟨hmem, by rw [← hfst]; exact htr, ?_⟩
    intro r' hr'
    rw [hbm] at hcont
    unfold pvContains at hcont
    have := List.any_eq_false.mp hcont (recKey keyName r', r')
      (List.mem_map_of_mem _ hr')
    rw [← hfst]
    exact Bool.eq_false_iff.mpr this
  refine ⟨extraP.map (fun p => p.2), ?_, hmain, ?_, ?_⟩
  · unfold mergeByKey
    rw [heq, hbm, List.map_append, List.map_map]
    rw [show List.map ((fun (p : PyVal × PyVal) => p.2)
        ∘ fun r => (recKey keyName r, r)) existing = existing
      from List.map_id existing]
  · intro rec hrec
    rcases List.mem_append.mp hrec with h | h
    · exact htruthy rec h
    · exact (hmain rec h).2.1
  · rw [List.pairwise_append]
    refine ⟨hdist, ?_, ?_⟩
    · rw [List.pairwise_map]
      refine hpw.imp_of_mem ?_
      intro p q hp hq hpq
      rw [(hprop p hp).2.1, (hprop q hq).2.1] at hpq
      exact hpq
    · intro a ha b hb
      exact (hmain b hb).2.2 a ha

/-- C7: first-seen-wins keyed merge.  When the accumulated record list has
truthy, pairwise-distinct natural keys, the keyed merge keeps every
accumulated record unchanged, in order, as a prefix of the result; the
records appended after them all come from the partial list and carry truthy
keys distinct from every accumulated key — a partial record whose key is
already present is never inserted and never replaces the accumulated
record.  This covers all three call sites (`service_name` with and without
the map-building filter, and `service_description`). -/
theorem C7_first_seen_wins (keyName : String) (withFilter : Bool)
    (existing newRecs : List PyVal)
    (htruthy : ∀ r ∈ existing, (recKey keyName r).truthy = true)
    (hdist : List.Pairwise
      (fun a b => pyEq (recKey keyName a) (recKey keyName b) = false) existing) :
    ∃ extra : List PyVal,
      mergeByKey keyName withFilter existing newRecs = existing ++ extra
      ∧ ∀ r ∈ extra, r ∈ newRecs
        ∧ (recKey keyName r).truthy = true
        ∧ ∀ r' ∈ existing,
            pyEq (recKey keyName r') (recKey keyName r) = false := by
  obtain ⟨extra, heq, hmain, _⟩ :=
    mergeByKey_spec keyName withFilter existing newRecs ⟨htruthy, hdist⟩
  exact ⟨extra, heq, hmain⟩

theorem C7_first_seen_wins_witness :
    (∀ r ∈ ([PyVal.dict [("service_name", PyVal.str "MRI"),
        ("coverage", PyVal.str "80%")]] : List PyVal),
      (recKey "service_name" r).truthy = true)
    ∧ ∃ extra : List PyVal,
      mergeByKey "service_name" true
          [PyVal.dict [("service_name", PyVal.str "MRI"),
            ("coverage", PyVal.str "80%")]]
          [PyVal.dict [("service_name", PyVal.str "MRI"),
            ("coverage", PyVal.str "50%")],
           PyVal.dict [("service_name", PyVal.str "X-Ray")]]
        = [PyVal.dict [("service_name", PyVal.str "MRI"),
            ("coverage", PyVal.str "80%")]] ++ extra
      ∧ ∀ r ∈ extra,
          r ∈ [PyVal.dict [("service_name", PyVal.str "MRI"),
                ("coverage", PyVal.str "50%")],
               PyVal.dict [("service_name", PyVal.str "X-Ray")]]
          ∧ (recKey "service_name" r).truthy = true
          ∧ ∀ r' ∈ ([PyVal.dict [("service_name", PyVal.str "MRI"),
              ("coverage", PyVal.str "80%")]] : List PyVal),
              pyEq (recKey "service_name" r') (recKey "service_name" r)
                = false :=
  ⟨by decide, C7_first_seen_wins "service_name" true _ _ (by decide) (by simp)⟩

/-! ## C1 — merge monotonicity: base lemmas -/

theorem pyGet_of_not_contains (d : PyDict) (k : String)
    (h : pyContains d k = false) : pyGet d k = PyVal.none := by
  induction d with
  | nil => rfl
  | cons p tl ih =>
    rw [pyContains] at h
    simp only [Bool.or_eq_false_iff, decide_eq_false_iff_not] at h
    rw [pyGet_cons, if_neg h.1]
    exact ih h.2

theorem pyContains_of_truthy (d : PyDict) (k : String)
    (h : (pyGet d k).truthy = true) : pyContains d k = true := by
  by_cases hc : pyContains d k = true
  · exact hc
  · rw [pyGet_of_not_contains d k (Bool.eq_false_iff.mpr hc)] at h
    exact absurd h (by decide)

theorem truthy_list_ne_nil (l : List PyVal)
    (h : (PyVal.list l).truthy = true) : l ≠ [] := by
  cases l with
  | nil => exact absurd h (by decide)
  | cons x tl => exact List.cons_ne_nil x tl

theorem truthy_eqZero_false (v : PyVal) (h : v.truthy = true) :
    v.eqZero = false := by
  cases v with
  | num q =>
    simp only [PyVal.truthy, decide_eq_true_eq] at h
    simp only [PyVal.eqZero, decide_eq_false_iff_not]
    exact h
  | bool b => cases b with
    | true => rfl
    | false => exact absurd h (by decide)
  | _ => rfl

theorem pySet_ne_nil (d : PyDict) (k : String) (v : PyVal) :
    pySet d k v ≠ [] := by
  cases d with
  | nil => exact List.cons_ne_nil _ _
  | cons p tl =>
    unfold pySet
    split_ifs <;> exact List.cons_ne_nil _ _

theorem dedupGo_len : ∀ (l : List PyVal) (st : List String × List PyVal),
    st.2.length ≤ (l.foldl
      (fun (st : List String × List PyVal) item =>
        let s := pyDump item
        if st.1.contains s then st else (st.1 ++ [s], st.2 ++ [item]))
      st).2.length := by
  intro l
  induction l with
  | nil => intro st; exact le_refl _
  | cons x tl ih =>
    intro st
    rw [List.foldl_cons]
    refine le_trans ?_ (ih _)
    dsimp only
    split_ifs
    · exact le_refl _
    · simp

theorem dedupByDump_ne_nil (l : List PyVal) (h : l ≠ []) :
    dedupByDump l ≠ [] := by
  cases l with
  | nil => exact absurd rfl h
  | cons x tl =>
    unfold dedupByDump
    rw [List.foldl_cons]
    intro hnil
    have hlen := dedupGo_len tl
      ((fun (st : List String × List PyVal) item =>
        let s := pyDump item
        if st.1.contains s then st else (st.1 ++ [s], st.2 ++ [item]))
        ([], []) x)
    rw [hnil] at hlen
    simp at hlen

theorem setUnionGo_len : ∀ (l : List PyVal) (acc : List PyVal),
    acc.length ≤ (l.foldl
      (fun acc item => if acc.any (pyEq item) then acc else acc ++ [item])
      acc).length := by
  intro l
  induction l with
  | nil => intro acc; exact le_refl _
  | cons x tl ih =>
    intro acc
    rw [List.foldl_cons]
    refine le_trans ?_ (ih _)
    split_ifs
    · exact le_refl _
    · simp

theorem setUnion_ne_nil (l1 l2 : List PyVal) (h : l1 ++ l2 ≠ []) :
    setUnion l1 l2 ≠ [] := by
  unfold setUnion
  cases hc : l1 ++ l2 with
  | nil => exact absurd hc h
  | cons x tl =>
    rw [List.foldl_cons]
    intro hnil
    have hlen := setUnionGo_len tl
      ((fun acc item => if acc.any (pyEq item) then acc else acc ++ [item])
        [] x)
    rw [hnil] at hlen
    simp at hlen

theorem cbFold_ne_nil : ∀ (items : PyDict) (b : PyDict), b ≠ [] →
    (items.foldl
      (fun b p =>
        if p.2.truthy && (!(pyGet b p.1).truthy || (pyGet b p.1).eqZero) then
          pySet b p.1 p.2
        else b)
      b) ≠ [] := by
  intro items
  induction items with
  | nil => exact fun b h => h
  | cons p tl ih =>
    intro b hb
    rw [List.foldl_cons]
    refine ih _ ?_
    dsimp only
    split_ifs
    · exact pySet_ne_nil _ _ _
    · exact hb

theorem cbFold_total_billed : ∀ (items : PyDict) (b : PyDict),
    (pyGet b "total_billed").truthy = true →
    (pyGet (items.foldl
      (fun b p =>
        if p.2.truthy && (!(pyGet b p.1).truthy || (pyGet b p.1).eqZero) then
          pySet b p.1 p.2
        else b)
      b) "total_billed").truthy = true := by
  intro items
  induction items with
  | nil => exact fun b h => h
  | cons p tl ih =>
    intro b hb
    rw [List.foldl_cons]
    refine ih _ ?_
    dsimp only
    by_cases hk : p.1 = "total_billed"
    · rw [if_neg ?_]
      · exact hb
      · rw [hk, hb, truthy_eqZero_false _ hb]
        simp
    · split_ifs
      · rw [pyGet_set_ne _ _ _ _ hk]
        exact hb
      · exact hb

theorem mergeScalarStep_get_ne (new acc : PyDict) (key k : String)
    (h : key ≠ k) :
    pyGet (mergeScalarStep new acc key) k = pyGet acc k := by
  unfold mergeScalarStep
  split_ifs
  · exact pyGet_set_ne _ _ _ _ h
  · rfl

theorem mergeListStep_get_ne (new acc : PyDict) (field k : String)
    (h : field ≠ k) :
    pyGet (mergeListStep new acc field) k = pyGet acc k := by
  unfold mergeListStep
  dsimp only
  split_ifs <;> first
    | rfl
    | exact pyGet_set_ne _ _ _ _ h

theorem mergeScalarFold_preserve (new : PyDict) :
    ∀ (keys : List String) (acc : PyDict) (k : String),
      (pyGet acc k).truthy = true →
      pyGet (keys.foldl (mergeScalarStep new) acc) k = pyGet acc k := by
  intro keys
  induction keys with
  | nil => intro acc k _; rfl
  | cons key tl ih =>
    intro acc k hk
    rw [List.foldl_cons]
    by_cases hkey : key = k
    · have hstep : mergeScalarStep new acc key = acc := by
        unfold mergeScalarStep
        rw [if_neg ?_]
        rw [hkey, hk]
        simp
      rw [hstep, ih acc k hk]
    · have hstep := mergeScalarStep_get_ne new acc key k hkey
      rw [ih _ k (by rw [hstep]; exact hk), hstep]

theorem mergeListFold_get_ne (new : PyDict) :
    ∀ (fields : List String) (acc : PyDict) (k : String),
      (∀ f ∈ fields, f ≠ k) →
      pyGet (fields.foldl (mergeListStep new) acc) k = pyGet acc k := by
  intro fields
  induction fields with
  | nil => intro acc k _; rfl
  | cons f tl ih =>
    intro acc k hf
    rw [List.foldl_cons,
      ih _ k (fun x hx => hf x (List.mem_cons_of_mem _ hx)),
      mergeListStep_get_ne new acc f k (hf f (List.mem_cons_self _ _))]

theorem truthy_list_of_ne_nil (l : List PyVal) (h : l ≠ []) :
    (PyVal.list l).truthy = true := by
  cases l with
  | nil => exact absurd rfl h
  | cons x tl => rfl

theorem isList_exists (v : PyVal) (h : v.isList = true) :
    ∃ l, v = PyVal.list l := by
  cases v with
  | list xs => exact ⟨xs, rfl⟩
  | _ => exact absurd h (by simp [PyVal.isList])

theorem isDict_exists (v : PyVal) (h : v.isDict = true) :
    ∃ kvs, v = PyVal.dict kvs := by
  cases v with
  | dict kvs => exact ⟨kvs, rfl⟩
  | _ => exact absurd h (by simp [PyVal.isDict])

/-- One benefits-CoT merge item preserves the services well-typedness and
the populatedness of every key. -/
theorem cotMergeItemB_inv (acc : PyDict) (kv : String × PyVal)
    (hsvc : svcStateOk "service_name" acc)
    (hkv : kv.1 = "services" →
      ∃ l, kv.2 = PyVal.list l ∧ svcWellFormed "service_name" l) :
    svcStateOk "service_name" (cotMergeItemB acc kv)
    ∧ ∀ k, (pyGet acc k).truthy = true →
        (pyGet (cotMergeItemB acc kv) k).truthy = true := by
  by_cases c1 : (!pyContains acc kv.1 || !(pyGet acc kv.1).truthy) = true
  · have hres : cotMergeItemB acc kv = pySet acc kv.1 kv.2 := by
      unfold cotMergeItemB
      dsimp only
      rw [if_pos c1]
    constructor
    · by_cases hks : kv.1 = "services"
      · intro _
        obtain ⟨l2, hv2, hwf2⟩ := hkv hks
        exact ⟨l2, by rw [hres, hks, pyGet_set_eq, hv2], hwf2⟩
      · intro ht
        rw [hres, pyGet_set_ne _ _ _ _ hks] at ht ⊢
        exact hsvc ht
    · intro k hk
      by_cases hkk : kv.1 = k
      · exfalso
        rw [hkk, pyContains_of_truthy _ _ hk, hk] at c1
        exact absurd c1 (by decide)
      · rw [hres, pyGet_set_ne _ _ _ _ hkk]
        exact hk
  · have hct : (pyGet acc kv.1).truthy = true := by
      have c1f : (!pyContains acc kv.1 || !(pyGet acc kv.1).truthy) = false :=
        Bool.eq_false_iff.mpr c1
      simp only [Bool.or_eq_false_iff, Bool.not_eq_false'] at c1f
      exact c1f.2
    by_cases c2 : (kv.2.isList && kv.2.truthy) = true
    · by_cases c4 : kv.1 = "services"
      · have c3 : ((["deductibles", "copays", "coinsurance", "coverage_limits",
            "services"] : List String).contains kv.1) = true := by
          rw [c4]; decide
        have hres : cotMergeItemB acc kv
            = pySet acc kv.1 (PyVal.list (mergeByKey "service_name" true
                (pyGet acc kv.1).asList kv.2.asList)) := by
          unfold cotMergeItemB
          dsimp only
          rw [if_neg c1, if_pos c2, if_pos c3, if_pos c4]
        obtain ⟨l, hl, hwf⟩ := hsvc (c4 ▸ hct)
        obtain ⟨l2, hv2, _⟩ := hkv c4
        obtain ⟨extra, heq, hmain, hwfA⟩ :=
          mergeByKey_spec "service_name" true l l2 hwf
        have hval : cotMergeItemB acc kv
            = pySet acc kv.1 (PyVal.list (l ++ extra)) := by
          rw [hres, c4, hl, hv2]
          dsimp only [PyVal.asList]
          rw [heq]
        refine ⟨?_, ?_⟩
        · intro _
          exact ⟨l ++ extra, by rw [hval, c4, pyGet_set_eq], hwfA⟩
        · intro k hk
          by_cases hkk : kv.1 = k
          · rw [hval, hkk, pyGet_set_eq]
            refine truthy_list_of_ne_nil _ ?_
            have hlne : l ≠ [] := by
              refine truthy_list_ne_nil l ?_
              rw [← hl, ← c4, hkk]
              exact hk
            exact fun hnil => hlne (List.append_eq_nil.mp hnil).1
          · rw [hval, pyGet_set_ne _ _ _ _ hkk]
            exact hk
      · have hl2 : ∃ l2, kv.2 = PyVal.list l2 ∧ l2 ≠ [] := by
          rw [Bool.and_eq_true] at c2
          obtain ⟨l2, hv2⟩ := isList_exists kv.2 c2.1
          refine ⟨l2, hv2, ?_⟩
          refine truthy_list_ne_nil l2 ?_
          rw [← hv2]
          exact c2.2
        by_cases c3 : ((["deductibles", "copays", "coinsurance",
            "coverage_limits", "services"] : List String).contains kv.1) = true
        · have hres : cotMergeItemB acc kv
              = pySet acc kv.1 (PyVal.list (dedupByDump
                  ((pyGet acc kv.1).asList ++ kv.2.asList))) := by
            unfold cotMergeItemB
            dsimp only
            rw [if_neg c1, if_pos c2, if_pos c3, if_neg c4]
          refine ⟨?_, ?_⟩
          · intro ht
            rw [hres, pyGet_set_ne _ _ _ _ c4] at ht ⊢
            exact hsvc ht
          · intro k hk
            by_cases hkk : kv.1 = k
            · rw [hres, hkk, pyGet_set_eq]
              refine truthy_list_of_ne_nil _ (dedupByDump_ne_nil _ ?_)
              obtain ⟨l2, hv2, hne2⟩ := hl2
              rw [← hkk, hv2]
              dsimp only [PyVal.asList]
              intro hnil
              exact hne2 (List.append_eq_nil.mp hnil).2
            · rw [hres, pyGet_set_ne _ _ _ _ hkk]
              exact hk
        · by_cases c5 : ((["exclusions", "preauth_required_services",
              "special_programs"] : List String).contains kv.1) = true
          · have hres : cotMergeItemB acc kv
                = pySet acc kv.1 (PyVal.list (setUnion
                    (pyGet acc kv.1).asList kv.2.asList)) := by
              unfold cotMergeItemB
              dsimp only
              rw [if_neg c1, if_pos c2, if_neg c3, if_pos c5]
            have hns : kv.1 ≠ "services" :=
              fun he => c3 (by rw [he]; decide)
            refine ⟨?_, ?_⟩
            · intro ht
              rw [hres, pyGet_set_ne _ _ _ _ hns] at ht ⊢
              exact hsvc ht
            · intro k hk
              by_cases hkk : kv.1 = k
              · rw [hres, hkk, pyGet_set_eq]
                refine truthy_list_of_ne_nil _ (setUnion_ne_nil _ _ ?_)
                obtain ⟨l2, hv2, hne2⟩ := hl2
                rw [← hkk, hv2]
                dsimp only [PyVal.asList]
                intro hnil
                exact hne2 (List.append_eq_nil.mp hnil).2
              · rw [hres, pyGet_set_ne _ _ _ _ hkk]
                exact hk
          · have hres : cotMergeItemB acc kv = acc := by
              unfold cotMergeItemB
              dsimp only
              rw [if_neg c1, if_pos c2, if_neg c3, if_neg c5]
            rw [hres]
            exact ⟨hsvc, fun _ hk => hk⟩
    · by_cases c6 : kv.2.truthy = true
      · have hres : cotMergeItemB acc kv = pySet acc kv.1 kv.2 := by
          unfold cotMergeItemB
          dsimp only
          rw [if_neg c1, if_neg c2, if_pos c6]
        refine ⟨?_, ?_⟩
        · by_cases hks : kv.1 = "services"
          · intro _
            obtain ⟨l2, hv2, hwf2⟩ := hkv hks
            exact ⟨l2, by rw [hres, hks, pyGet_set_eq, hv2], hwf2⟩
          · intro ht
            rw [hres, pyGet_set_ne _ _ _ _ hks] at ht ⊢
            exact hsvc ht
        · intro k hk
          by_cases hkk : kv.1 = k
          · rw [hres, hkk, pyGet_set_eq]
            exact c6
          · rw [hres, pyGet_set_ne _ _ _ _ hkk]
            exact hk
      · have hres : cotMergeItemB acc kv = acc := by
          unfold cotMergeItemB
          dsimp only
          rw [if_neg c1, if_neg c2, if_neg c6]
        rw [hres]
        exact ⟨hsvc, fun _ hk => hk⟩

theorem truthy_dict_ne_nil (kvs : PyDict)
    (h : (PyVal.dict kvs).truthy = true) : kvs ≠ [] := by
  cases kvs with
  | nil => exact absurd h (by decide)
  | cons x tl => exact List.cons_ne_nil x tl

theorem truthy_dict_of_ne_nil (kvs : PyDict) (h : kvs ≠ []) :
    (PyVal.dict kvs).truthy = true := by
  cases kvs with
  | nil => exact absurd rfl h
  | cons x tl => rfl

/-- One EOB-CoT merge item preserves the services and coverage-breakdown
well-typedness and the populatedness of every key. -/
theorem cotMergeItemE_inv (acc : PyDict) (kv : String × PyVal)
    (hsvc : svcStateOk "service_description" acc)
    (hcb : cbStateOk acc)
    (hkvS : kv.1 = "services" →
      ∃ l, kv.2 = PyVal.list l ∧ svcWellFormed "service_description" l)
    (hkvC : kv.1 = "coverage_breakdown" → kv.2.truthy = true →
      ∃ kvs, kv.2 = PyVal.dict kvs ∧ (pyGet kvs "total_billed").truthy = true) :
    svcStateOk "service_description" (cotMergeItemE acc kv)
    ∧ cbStateOk (cotMergeItemE acc kv)
    ∧ ∀ k, (pyGet acc k).truthy = true →
        (pyGet (cotMergeItemE acc kv) k).truthy = true := by
  by_cases c1 : (!pyContains acc kv.1 || !(pyGet acc kv.1).truthy) = true
  · have hres : cotMergeItemE acc kv = pySet acc kv.1 kv.2 := by
      unfold cotMergeItemE
      dsimp only
      rw [if_pos c1]
    refine ⟨?_, ?_, ?_⟩
    · by_cases hks : kv.1 = "services"
      · intro _
        obtain ⟨l2, hv2, hwf2⟩ := hkvS hks
        exact ⟨l2, by rw [hres, hks, pyGet_set_eq, hv2], hwf2⟩
      · intro ht
        rw [hres, pyGet_set_ne _ _ _ _ hks] at ht ⊢
        exact hsvc ht
    · by_cases hkc : kv.1 = "coverage_breakdown"
      · intro ht
        rw [hres, hkc, pyGet_set_eq] at ht
        obtain ⟨kvs2, hv2, htb2⟩ := hkvC hkc ht
        exact ⟨kvs2, by rw [hres, hkc, pyGet_set_eq, hv2], htb2⟩
      · intro ht
        rw [hres, pyGet_set_ne _ _ _ _ hkc] at ht ⊢
        exact hcb ht
    · intro k hk
      by_cases hkk : kv.1 = k
      · exfalso
        rw [hkk, pyContains_of_truthy _ _ hk, hk] at c1
        exact absurd c1 (by decide)
      · rw [hres, pyGet_set_ne _ _ _ _ hkk]
        exact hk
  · have hct : (pyGet acc kv.1).truthy = true := by
      have c1f : (!pyContains acc kv.1 || !(pyGet acc kv.1).truthy) = false :=
        Bool.eq_false_iff.mpr c1
      simp only [Bool.or_eq_false_iff, Bool.not_eq_false'] at c1f
      exact c1f.2
    by_cases c2 : (kv.2.isList && kv.2.truthy) = true
    · by_cases c4 : kv.1 = "services"
      · have hres : cotMergeItemE acc kv
            = pySet acc kv.1 (PyVal.list (mergeByKey "service_description"
                false (pyGet acc kv.1).asList kv.2.asList)) := by
          unfold cotMergeItemE
          dsimp only
          rw [if_neg c1, if_pos c2, if_pos c4]
        obtain ⟨l, hl, hwf⟩ := hsvc (c4 ▸ hct)
        obtain ⟨l2, hv2, _⟩ := hkvS c4
        obtain ⟨extra, heq, hmain, hwfA⟩ :=
          mergeByKey_spec "service_description" false l l2 hwf
        have hval : cotMergeItemE acc kv
            = pySet acc kv.1 (PyVal.list (l ++ extra)) := by
          rw [hres, c4, hl, hv2]
          dsimp only [PyVal.asList]
          rw [heq]
        have hns : kv.1 ≠ "coverage_breakdown" := by rw [c4]; decide
        refine ⟨?_, ?_, ?_⟩
        · intro _
          exact ⟨l ++ extra, by rw [hval, c4, pyGet_set_eq], hwfA⟩
        · intro ht
          rw [hval, pyGet_set_ne _ _ _ _ hns] at ht ⊢
          exact hcb ht
        · intro k hk
          by_cases hkk : kv.1 = k
          · rw [hval, hkk, pyGet_set_eq]
            refine truthy_list_of_ne_nil _ ?_
            have hlne : l ≠ [] := by
              refine truthy_list_ne_nil l ?_
              rw [← hl, ← c4, hkk]
              exact hk
            exact fun hnil => hlne (List.append_eq_nil.mp hnil).1
          · rw [hval, pyGet_set_ne _ _ _ _ hkk]
            exact hk
      · have hl2 : ∃ l2, kv.2 = PyVal.list l2 ∧ l2 ≠ [] := by
          rw [Bool.and_eq_true] at c2
          obtain ⟨l2, hv2⟩ := isList_exists kv.2 c2.1
          refine ⟨l2, hv2, ?_⟩
          refine truthy_list_ne_nil l2 ?_
          rw [← hv2]
          exact c2.2
        by_cases c5 : ((["alerts", "discrepancies"] : List String).contains
            kv.1) = true
        · have hres : cotMergeItemE acc kv
              = pySet acc kv.1 (PyVal.list (setUnion
                  (pyGet acc kv.1).asList kv.2.asList)) := by
            unfold cotMergeItemE
            dsimp only
            rw [if_neg c1, if_pos c2, if_neg c4, if_pos c5]
          have hnc : kv.1 ≠ "coverage_breakdown" := by
            intro he
            rw [he] at c5
            exact absurd c5 (by decide)
          refine ⟨?_, ?_, ?_⟩
          · intro ht
            rw [hres, pyGet_set_ne _ _ _ _ c4] at ht ⊢
            exact hsvc ht
          · intro ht
            rw [hres, pyGet_set_ne _ _ _ _ hnc] at ht ⊢
            exact hcb ht
          · intro k hk
            by_cases hkk : kv.1 = k
            · rw [hres, hkk, pyGet_set_eq]
              refine truthy_list_of_ne_nil _ (setUnion_ne_nil _ _ ?_)
              obtain ⟨l2, hv2, hne2⟩ := hl2
              rw [← hkk, hv2]
              dsimp only [PyVal.asList]
              intro hnil
              exact hne2 (List.append_eq_nil.mp hnil).2
            · rw [hres, pyGet_set_ne _ _ _ _ hkk]
              exact hk
        · have hres : cotMergeItemE acc kv = acc := by
            unfold cotMergeItemE
            dsimp only
            rw [if_neg c1, if_pos c2, if_neg c4, if_neg c5]
          rw [hres]
          exact ⟨hsvc, hcb, fun _ hk => hk⟩
    · by_cases c3 : (kv.2.isDict && (kv.1 = "coverage_breakdown" : Bool))
          = true
      · have c3' := c3
        rw [Bool.and_eq_true] at c3'
        have hkc : kv.1 = "coverage_breakdown" := of_decide_eq_true c3'.2
        have hct' : (PyVal.dict ((pyGet acc kv.1).asDict)).truthy = true := by
          obtain ⟨kvs, hcbv, _⟩ := hcb (hkc ▸ hct)
          rw [hkc, hcbv]
          dsimp only [PyVal.asDict]
          rw [hkc, hcbv] at hct
          exact hct
        obtain ⟨kvs, hcbv, htb⟩ := hcb (hkc ▸ hct)
        have hcI : (!(pyGet acc kv.1).truthy
            || !(pyGet (pyGet acc kv.1).asDict "total_billed").truthy)
            = false := by
          rw [hkc, hcbv]
          dsimp only [PyVal.asDict]
          rw [htb]
          have hct2 : (PyVal.dict kvs).truthy = true := by
            rw [hkc, hcbv] at hct
            exact hct
          rw [hct2]
          rfl
        have hres : cotMergeItemE acc kv
            = pySet acc kv.1 (PyVal.dict (kv.2.asDict.foldl
                (fun b p =>
                  if p.2.truthy
                      && (!(pyGet b p.1).truthy || (pyGet b p.1).eqZero) then
                    pySet b p.1 p.2
                  else b)
                (pyGet acc kv.1).asDict)) := by
          unfold cotMergeItemE
          dsimp only
          rw [if_neg c1, if_neg c2, if_pos c3,
            if_neg (by rw [hcI]; exact Bool.false_ne_true)]
        have hres2 : cotMergeItemE acc kv
            = pySet acc kv.1 (PyVal.dict (kv.2.asDict.foldl
                (fun b p =>
                  if p.2.truthy
                      && (!(pyGet b p.1).truthy || (pyGet b p.1).eqZero) then
                    pySet b p.1 p.2
                  else b)
                kvs)) := by
          rw [hres, hkc, hcbv]
          dsimp only [PyVal.asDict]
        have hns : kv.1 ≠ "services" := by rw [hkc]; decide
        refine ⟨?_, ?_, ?_⟩
        · intro ht
          rw [hres2, pyGet_set_ne _ _ _ _ hns] at ht ⊢
          exact hsvc ht
        · intro _
          refine ⟨_, by rw [hres2, hkc, pyGet_set_eq], ?_⟩
          exact cbFold_total_billed kv.2.asDict kvs htb
        · intro k hk
          by_cases hkk : kv.1 = k
          · rw [hres2, hkk, pyGet_set_eq]
            refine truthy_dict_of_ne_nil _ ?_
            refine cbFold_ne_nil kv.2.asDict kvs ?_
            refine truthy_dict_ne_nil kvs ?_
            rw [← hcbv, ← hkc, hkk]
            exact hk
          · rw [hres2, pyGet_set_ne _ _ _ _ hkk]
            exact hk
      · by_cases c6 : kv.2.truthy = true
        · have hres : cotMergeItemE acc kv = pySet acc kv.1 kv.2 := by
            unfold cotMergeItemE
            dsimp only
            rw [if_neg c1, if_neg c2, if_neg c3, if_pos c6]
          refine ⟨?_, ?_, ?_⟩
          · by_cases hks : kv.1 = "services"
            · intro _
              obtain ⟨l2, hv2, hwf2⟩ := hkvS hks
              exact ⟨l2, by rw [hres, hks, pyGet_set_eq, hv2], hwf2⟩
            · intro ht
              rw [hres, pyGet_set_ne _ _ _ _ hks] at ht ⊢
              exact hsvc ht
          · by_cases hkc : kv.1 = "coverage_breakdown"
            · intro ht
              rw [hres, hkc, pyGet_set_eq] at ht
              obtain ⟨kvs2, hv2, htb2⟩ := hkvC hkc ht
              exact ⟨kvs2, by rw [hres, hkc, pyGet_set_eq, hv2], htb2⟩
            · intro ht
              rw [hres, pyGet_set_ne _ _ _ _ hkc] at ht ⊢
              exact hcb ht
          · intro k hk
            by_cases hkk : kv.1 = k
            · rw [hres, hkk, pyGet_set_eq]
              exact c6
            · rw [hres, pyGet_set_ne _ _ _ _ hkk]
              exact hk
        · have hres : cotMergeItemE acc kv = acc := by
            unfold cotMergeItemE
            dsimp only
            rw [if_neg c1, if_neg c2, if_neg c3, if_neg c6]
          rw [hres]
          exact ⟨hsvc, hcb, fun _ hk => hk⟩

theorem cotMergeStepB_inv (r : PyDict) : ∀ acc : PyDict,
    svcStateOk "service_name" acc → svcItemsOk "service_name" r →
    svcStateOk "service_name" (cotMergeStepB acc r)
    ∧ ∀ k, (pyGet acc k).truthy = true →
        (pyGet (cotMergeStepB acc r) k).truthy = true := by
  unfold cotMergeStepB
  induction r with
  | nil => exact fun _ hs _ => ⟨hs, fun _ hk => hk⟩
  | cons kv tl ih =>
    intro acc hs hitems
    rw [List.foldl_cons]
    have hitem := cotMergeItemB_inv acc kv hs
      (fun hks => hitems kv (List.mem_cons_self _ _) hks)
    have hih := ih (cotMergeItemB acc kv) hitem.1
      (fun x hx => hitems x (List.mem_cons_of_mem _ hx))
    exact ⟨hih.1, fun k hk => hih.2 k (hitem.2 k hk)⟩

theorem cotMergeStepE_inv (r : PyDict) : ∀ acc : PyDict,
    svcStateOk "service_description" acc → cbStateOk acc →
    svcItemsOk "service_description" r → cbItemsOk r →
    svcStateOk "service_description" (cotMergeStepE acc r)
    ∧ cbStateOk (cotMergeStepE acc r)
    ∧ ∀ k, (pyGet acc k).truthy = true →
        (pyGet (cotMergeStepE acc r) k).truthy = true := by
  unfold cotMergeStepE
  induction r with
  | nil => exact fun _ hs hc _ _ => ⟨hs, hc, fun _ hk => hk⟩
  | cons kv tl ih =>
    intro acc hs hc hitemsS hitemsC
    rw [List.foldl_cons]
    have hitem := cotMergeItemE_inv acc kv hs hc
      (fun hks => hitemsS kv (List.mem_cons_self _ _) hks)
      (fun hkc htr => hitemsC kv (List.mem_cons_self _ _) hkc htr)
    have hih := ih (cotMergeItemE acc kv) hitem.1 hitem.2.1
      (fun x hx => hitemsS x (List.mem_cons_of_mem _ hx))
      (fun x hx => hitemsC x (List.mem_cons_of_mem _ hx))
    exact ⟨hih.1, hih.2.1, fun k hk => hih.2.2 k (hitem.2.2 k hk)⟩

/-- C1 counterexample: the agents' merges are not monotonic.
(i) `_merge_benefits` unconditionally overwrites the boolean
`out_of_network_coverage`, here replacing a populated `True` with `False`;
(ii) the EOB per-step merge wholesale-replaces a populated
`coverage_breakdown` that lacks a truthy `total_billed` — here a breakdown
holding `total_covered: 100` is replaced by the empty dict, so a populated
field becomes empty; (iii) the benefits per-step merge overwrites a
populated scalar (`plan_name`) with any newer truthy value; (iv) in the
keyed services merge the map-building filter drops an accumulated record
whose `service_name` is missing, so the populated record list collapses to
the empty list — records are removed, not only added. -/
theorem C1_counterexample :
    pyGet (merge_benefits [("out_of_network_coverage", PyVal.bool true)]
        [("out_of_network_coverage", PyVal.bool false)])
      "out_of_network_coverage" = PyVal.bool false
    ∧ pyGet (cotMergeStepE
        [("coverage_breakdown",
          PyVal.dict [("total_covered", PyVal.num 100)])]
        [("coverage_breakdown", PyVal.dict [])])
      "coverage_breakdown" = PyVal.dict []
    ∧ pyGet (cotMergeStepB [("plan_name", PyVal.str "Gold PPO")]
        [("plan_name", PyVal.str "Silver HMO")])
      "plan_name" = PyVal.str "Silver HMO"
    ∧ pyGet (cotMergeStepB
        [("services", PyVal.list [PyVal.dict [("coverage", PyVal.str "80%")]])]
        [("services", PyVal.list [PyVal.dict [("note", PyVal.str "n")]])])
      "services" = PyVal.list [] :=
  ⟨rfl, rfl, rfl, rfl⟩

/-- C1 amended: what does hold.  (i) `_merge_benefits` keeps the exact
value of every populated scalar key (the `if key in new and (not
merged.get(key) ...)` guard); the named exceptions are the boolean
`out_of_network_coverage` and the list fields, which are rebuilt.
(ii)/(iii) The CoT per-step merges preserve populatedness (never turn a
populated field empty) at every key, provided the accumulated and incoming
`services` lists are well-formed keyed record lists (truthy, pairwise
distinct natural keys) and — for the EOB agent — the accumulated and
incoming `coverage_breakdown` are dicts carrying a truthy `total_billed`;
the C1 counterexample shows each of these provisos is necessary, and that
populated values (as opposed to populatedness) may still be rewritten. -/
theorem C1_amended (existing newResult : PyDict) :
    (∀ k ∈ scalarMergeKeys, (pyGet existing k).truthy = true →
      pyGet (merge_benefits existing newResult) k = pyGet existing k)
    ∧ (∀ (acc r : PyDict), svcStateOk "service_name" acc →
        svcItemsOk "service_name" r →
        ∀ k, (pyGet acc k).truthy = true →
          (pyGet (cotMergeStepB acc r) k).truthy = true)
    ∧ (∀ (acc r : PyDict), svcStateOk "service_description" acc →
        cbStateOk acc → svcItemsOk "service_description" r → cbItemsOk r →
        ∀ k, (pyGet acc k).truthy = true →
          (pyGet (cotMergeStepE acc r) k).truthy = true) := by
  refine ⟨?_, ?_, ?_⟩
  · intro k hk htr
    have hfacts : k ≠ "out_of_network_coverage"
        ∧ ∀ f ∈ listMergeFields, f ≠ k := by
      simp only [scalarMergeKeys, List.mem_cons, List.not_mem_nil,
        or_false] at hk
      rcases hk with rfl|rfl|rfl|rfl|rfl|rfl|rfl|rfl|rfl|rfl|rfl|rfl|rfl|rfl|rfl
      all_goals exact ⟨by decide, by decide⟩
    unfold merge_benefits
    dsimp only
    rw [mergeListFold_get_ne newResult listMergeFields _ k hfacts.2]
    split_ifs
    · rw [pyGet_set_ne _ _ _ _ (Ne.symm hfacts.1)]
      exact mergeScalarFold_preserve newResult scalarMergeKeys existing k htr
    · exact mergeScalarFold_preserve newResult scalarMergeKeys existing k htr
  · exact fun acc r hs hi k hk => (cotMergeStepB_inv r acc hs hi).2 k hk
  · exact fun acc r hs hc hiS hiC k hk =>
      (cotMergeStepE_inv r acc hs hc hiS hiC).2.2 k hk

theorem C1_amended_witness :
    pyGet (merge_benefits [("plan_name", PyVal.str "Gold")]
        [("plan_name", PyVal.str "Silver")]) "plan_name"
      = pyGet [("plan_name", PyVal.str "Gold")] "plan_name"
    ∧ (pyGet (cotMergeStepB [("plan_name", PyVal.str "Gold")]
        [("plan_name", PyVal.str "Silver")]) "plan_name").truthy = true
    ∧ (pyGet (cotMergeStepE [("member_name", PyVal.str "Ann")]
        [("member_name", PyVal.str "Bob")]) "member_name").truthy = true := by
  have h := C1_amended [("plan_name", PyVal.str "Gold")]
    [("plan_name", PyVal.str "Silver")]
  refine ⟨h.1 "plan_name" (by decide) (by decide), ?_, ?_⟩
  · refine h.2.1 [("plan_name", PyVal.str "Gold")]
      [("plan_name", PyVal.str "Silver")]
      (fun hx => absurd hx (by decide)) ?_ "plan_name" (by decide)
    intro kv hkv hks
    rw [List.mem_singleton] at hkv
    subst hkv
    exact absurd hks (by decide)
  · refine h.2.2 [("member_name", PyVal.str "Ann")]
      [("member_name", PyVal.str "Bob")]
      (fun hx => absurd hx (by decide)) (fun hx => absurd hx (by decide))
      ?_ ?_ "member_name" (by decide)
    · intro kv hkv hks
      rw [List.mem_singleton] at hkv
      subst hkv
      exact absurd hks (by decide)
    · intro kv hkv hkc
      rw [List.mem_singleton] at hkv
      subst hkv
      exact absurd hkc (by decide)

/-! ## C8 — bounded refinement with stagnation short-circuit -/

theorem refinePass_calls_le (env : IterEnv) (AC : List (Nat × String))
    (used : List Nat) (cur : PyDict) (r : Except String PyDict) (calls : Nat)
    (h : refinePass env AC used cur = RefineOutcome.stop r calls) :
    calls ≤ 1 := by
  unfold refinePass at h
  dsimp only at h
  by_cases h1 : (analyze_missing_information cur).isEmpty = true
  · rw [if_pos h1] at h
    injection h with _ h2
    omega
  · rw [if_neg h1] at h
    cases hq : query_missing_information env
        (analyze_missing_information cur) used with
    | error e =>
      rw [hq] at h
      injection h with _ h2
      omega
    | ok additional =>
      rw [hq] at h
      dsimp only at h
      cases hx : env.extractFromText
          (refineText cur (analyze_missing_information cur)
            (natUpdate AC additional))
          (some (analyze_missing_information cur)) with
      | error e =>
        rw [hx] at h
        injection h with _ h2
        omega
      | ok refined =>
        rw [hx] at h
        dsimp only at h
        split_ifs at h
        all_goals first
          | (injection h with _ h2; omega)
          | exact RefineOutcome.noConfusion h

/-- C8: the refinement loop makes at most its fuel's worth of extra
extraction calls; exhausting the budget returns the accumulated result
without raising; `_extract_iteratively` makes at most `max_iterations`
extraction passes in total; a stagnating pass (`len(new_missing) >=
len(missing_info)`) stops the loop immediately with the previous
accumulated result; and an empty missing list also stops it at no extra
cost. -/
theorem C8_bounded_refinement_stagnation (env : IterEnv) :
    (∀ (n : Nat) (AC : List (Nat × String)) (used : List Nat)
        (cur : PyDict) (count : Nat),
      (refineLoop env n AC used cur count).2 ≤ count + n)
    ∧ (∀ (AC : List (Nat × String)) (used : List Nat) (cur : PyDict)
        (count : Nat),
      refineLoop env 0 AC used cur count = (Except.ok cur, count))
    ∧ (∀ (document_id : String) (mi : Nat), 1 ≤ mi →
        (extract_iteratively env document_id mi).2 ≤ mi)
    ∧ (∀ (AC : List (Nat × String)) (used : List Nat)
        (current refined : PyDict) (additional : List (Nat × String)),
      (analyze_missing_information current).isEmpty = false →
      query_missing_information env (analyze_missing_information current) used
        = Except.ok additional →
      env.extractFromText
          (refineText current (analyze_missing_information current)
            (natUpdate AC additional))
          (some (analyze_missing_information current))
        = Except.ok refined →
      (analyze_missing_information current).length
        ≤ (analyze_missing_information (merge_benefits current refined)).length →
      refinePass env AC used current = RefineOutcome.stop (Except.ok current) 1
      ∧ ∀ (n count : Nat), refineLoop env (n + 1) AC used current count
          = (Except.ok current, count + 1))
    ∧ (∀ (n : Nat) (AC : List (Nat × String)) (used : List Nat)
        (cur : PyDict) (count : Nat),
      (analyze_missing_information cur).isEmpty = true →
      refineLoop env (n + 1) AC used cur count = (Except.ok cur, count)) := by
  have ha : ∀ (n : Nat) (AC : List (Nat × String)) (used : List Nat)
      (cur : PyDict) (count : Nat),
      (refineLoop env n AC used cur count).2 ≤ count + n := by
    intro n
    induction n with
    | zero => intro AC used cur count; exact Nat.le_add_right _ _
    | succ n ih =>
      intro AC used cur count
      unfold refineLoop
      cases hp : refinePass env AC used cur with
      | stop r calls =>
        dsimp only
        have := refinePass_calls_le env AC used cur r calls hp
        omega
      | next AC' used' merged =>
        dsimp only
        have := ih AC' used' merged (count + 1)
        omega
  refine ⟨ha, fun _ _ _ _ => rfl, ?_, ?_, ?_⟩
  · intro did mi hmi
    unfold extract_iteratively
    cases hq : env.queryPrivate "insurance benefits coverage plan" with
    | error e => dsimp only; omega
    | ok ms =>
      dsimp only
      split_ifs with h1
      · dsimp only; omega
      · cases hx : env.extractFromText
            (joinNN ((sortByKey (ms.foldl
              (fun d m =>
                if m.2 ≠ "" && !natContains d m.1 then natSet d m.1 m.2
                else d)
              [])).map (fun p => p.2)))
            Option.none with
        | error e => dsimp only; omega
        | ok current =>
          dsimp only
          exact le_trans (ha (mi - 1) _ _ current 1) (by omega)
  · intro AC used current refined additional hne hq hx hstag
    have hpass : refinePass env AC used current
        = RefineOutcome.stop (Except.ok current) 1 := by
      unfold refinePass
      dsimp only
      rw [if_neg (by rw [hne]; exact Bool.false_ne_true), hq]
      dsimp only
      rw [hx]
      dsimp only
      rw [if_pos hstag]
    refine ⟨hpass, ?_⟩
    intro n count
    unfold refineLoop
    rw [hpass]
  · intro n AC used cur count hemp
    have hpass : refinePass env AC used cur
        = RefineOutcome.stop (Except.ok cur) 0 := by
      unfold refinePass
      dsimp only
      rw [if_pos hemp]
    unfold refineLoop
    rw [hpass]
    rfl

theorem C8_bounded_refinement_stagnation_witness :
    refineLoop (IterEnv.mk (fun _ => Except.ok [(0, "text")])
        (fun _ _ => Except.ok [])) 0 [] [] [] 5 = (Except.ok [], 5)
    ∧ (extract_iteratively (IterEnv.mk (fun _ => Except.ok [(0, "text")])
        (fun _ _ => Except.ok [])) "doc" 3).2 ≤ 3
    ∧ refineLoop (IterEnv.mk (fun _ => Except.ok [(0, "text")])
        (fun _ _ => Except.ok [])) 1 [] []
        [("plan_name", PyVal.str "P"), ("insurance_provider", PyVal.str "I"),
         ("policy_number", PyVal.str "N"),
         ("deductibles", PyVal.list [PyVal.str "d"]),
         ("copays", PyVal.list [PyVal.str "c"]),
         ("out_of_pocket_max_individual", PyVal.str "1000"),
         ("services", PyVal.list [PyVal.str "a", PyVal.str "b", PyVal.str "c"]),
         ("in_network_providers", PyVal.str "x"),
         ("exclusions", PyVal.list [PyVal.str "e"])] 7
      = (Except.ok [("plan_name", PyVal.str "P"),
          ("insurance_provider", PyVal.str "I"),
          ("policy_number", PyVal.str "N"),
          ("deductibles", PyVal.list [PyVal.str "d"]),
          ("copays", PyVal.list [PyVal.str "c"]),
          ("out_of_pocket_max_individual", PyVal.str "1000"),
          ("services", PyVal.list [PyVal.str "a", PyVal.str "b", PyVal.str "c"]),
          ("in_network_providers", PyVal.str "x"),
          ("exclusions", PyVal.list [PyVal.str "e"])], 7)
    ∧ refinePass (IterEnv.mk (fun _ => Except.ok [(0, "text")])
        (fun _ _ => Except.ok [])) [] [] []
      = RefineOutcome.stop (Except.ok []) 1 := by
  have h := C8_bounded_refinement_stagnation
    (IterEnv.mk (fun _ => Except.ok [(0, "text")]) (fun _ _ => Except.ok []))
  refine ⟨h.2.1 [] [] [] 5, h.2.2.1 "doc" 3 (by decide),
    h.2.2.2.2 0 [] [] _ 7 (by decide), ?_⟩
  exact (h.2.2.2.1 [] [] [] [] [(0, "text")] (by decide) rfl rfl
    (by decide)).1

theorem C2_finalization_required_fields_witness :
    pyGet (benefits_extract_from_document
        (CotEnv.mk (Except.ok [(0, "no names in this document")])
          (fun _ => Except.error "down") (fun _ _ _ => Except.error "bad json"))
        "u1" "doc-7" "2026-01-01" Option.none) "plan_name"
      = PyVal.str ("Unknown Plan - " ++ "doc-7")
    ∧ pyGet (eob_extract_from_document
        (CotEnv.mk (Except.ok [(0, "no names in this document")])
          (fun _ => Except.error "down") (fun _ _ _ => Except.error "bad json"))
        "u2" "doc-8" "2026-01-01" Option.none) "member_name"
      = PyVal.str "Unknown Member"
    ∧ pyGet (eob_extract_from_document
        (CotEnv.mk (Except.ok [(0, "no names in this document")])
          (fun _ => Except.error "down") (fun _ _ _ => Except.error "bad json"))
        "u2" "doc-8" "2026-01-01" Option.none) "claim_number"
      = PyVal.str "doc-8"
    ∧ pyGet (eob_extract_from_document
        (CotEnv.mk (Except.ok [(0, "no names in this document")])
          (fun _ => Except.error "down") (fun _ _ _ => Except.error "bad json"))
        "u2" "doc-8" "2026-01-01" Option.none) "provider_name"
      = PyVal.str "Weill Cornell Medicine" := by
  have h := C2_finalization_required_fields
    (CotEnv.mk (Except.ok [(0, "no names in this document")])
      (fun _ => Except.error "down") (fun _ _ _ => Except.error "bad json"))
    "u1" "doc-7" "2026-01-01" Option.none
    (fun _ _ _ _ hr => Except.noConfusion hr)
    (CotEnv.mk (Except.ok [(0, "no names in this document")])
      (fun _ => Except.error "down") (fun _ _ _ => Except.error "bad json"))
    "u2" "doc-8" "2026-01-01" Option.none
    (fun _ _ _ _ hr => Except.noConfusion hr)
  exact ⟨h.1, h.2.1, h.2.2.1, h.2.2.2.1⟩

theorem C10_tenant_scoping_witness :
    (pyContains (docIdFilter "doc-9") "user_id" = false)
    ∧ pyGet (query_private_filter "user-1" (some ["plan_document"])
        (some (docIdFilter "doc-9"))) "user_id"
        = PyVal.dict [("$eq", PyVal.str "user-1")] :=
  ⟨by decide,
   (C10_tenant_scoping "user-1" "doc-9" (some ["plan_document"])
      (docIdFilter "doc-9") (by decide)).1⟩

end Carepilot
